import Mathlib

/-!
# Verification of the hyper3d-envmapgen LTASG core

This file gives a shallow embedding of the TypeScript core of
hyper3d-envmapgen (`ts/ltasgblur.ts`, `ts/index.ts`, `ts/wasm.ts`,
`ts/image.ts`) and proves properties of the embedded definitions.

Modelling conventions:
* JavaScript `number` (IEEE double) arithmetic is idealised as real
  arithmetic over `ℝ`; `Math.fround` is taken as the identity.  The one
  place where a property hinges on IEEE semantics (division `0/0`
  producing NaN inside the kernel builder) is modelled separately with an
  `Option ℝ` value type in which `none` plays the role of NaN.
* JavaScript integers produced by `| 0`, `>> k` and array lengths are
  modelled as `ℤ`/`ℕ`; 32-bit wrap-around of `<<`/`>>` is not modelled
  (all quantities of interest stay far below `2^31`).
* `Float32Array` face images are modelled as `List ℝ`.
* The WebAssembly routine `emg_ltasg_single` (Rust source, not part of
  the TypeScript sources embedded here) is an abstract parameter of type
  `PassFn`.
-/

namespace Emg

/-- Pixel formats, from `ts/image.ts` (`enum ImageFormat`). -/
inductive ImageFormat
  | Srgbx8
  | Srgba8StraightAlpha
  | RgbaF32PremulAlpha
  deriving DecidableEq, Repr

/-- A face image: the contents of one `Float32Array`. -/
abbrev Face := List ℝ

/-! ## Kernel builder (`generateGaussianKernel`, ts/ltasgblur.ts lines 52–67) -/

/-- The unnormalised Gaussian samples `v[i] = exp(-0.5 * ((i - radius) / sigma) ** 2)`
for `i = 0 .. 2*radius`, accumulated into `sum` by the source loop. -/
noncomputable def gaussianWeights (radius : ℕ) (sigma : ℝ) : List ℝ :=
  (List.range (2 * radius + 1)).map fun (i : ℕ) =>
    Real.exp (-(0.5) * (((i : ℝ) - (radius : ℝ)) / sigma) ^ 2)

/-- `generateGaussianKernel(radius, sigma)`: the samples scaled by
`scale = 1 / sum` (`v[i] *= scale`). -/
noncomputable def generateGaussianKernel (radius : ℕ) (sigma : ℝ) : List ℝ :=
  (gaussianWeights radius sigma).map fun x => x * (1 / (gaussianWeights radius sigma).sum)

/-! ## Plan builder (`LtasgBlur` constructor, ts/ltasgblur.ts lines 95–136) -/

/-- The options record `LtasgOptions`.  The TypeScript optional fields
`minNumPasses`, `kernelResolution` and `kernelWidth` are defaulted with
`x || default`, so the JavaScript-falsy value `0` selects the default;
that defaulting is applied by `effMinNumPasses` and friends below. -/
structure LtasgOptions where
  imageSize : ℤ
  mipLevelSigmas : List ℝ
  minNumPasses : ℤ
  kernelResolution : ℝ
  kernelWidth : ℝ

/-- One element of `this.plan`: `{ kernel, kernelScale, numPasses }`. -/
structure PlanEntry where
  kernel : List ℝ
  kernelScale : ℝ
  numPasses : ℤ

instance : Inhabited PlanEntry := ⟨⟨[], 0, 0⟩⟩

/-- `const size = (this.size + (1 << i) - 1) >> i`: the level-`i` face side
`⌈N / 2^i⌉` (32-bit wrap-around of the shifts is not modelled). -/
def levelSize (N : ℤ) (i : ℕ) : ℤ := (N + 2 ^ i - 1) / 2 ^ i

/-- The per-level computation of the constructor body (lines 117–134):
`sigmaLimit`, `numPasses`, `levelSigma`, `kernelRadius`, `kernelScale`,
and the stored plan entry.  `Math.floor` yields an integer used as the
builder's radius; it is non-negative here (`levelSigma ≥ 0`), and
`Int.toNat` feeds it to the `ℕ`-indexed kernel builder. -/
noncomputable def mkPlanEntry (size minNumPasses : ℤ) (kernelWidth kernelResolution : ℝ)
    (residueVar : ℝ) : PlanEntry :=
  let sigmaLimit : ℝ := 0.5 / kernelWidth
  let numPasses : ℤ := max ⌈residueVar / (sigmaLimit * sigmaLimit)⌉ minNumPasses
  let levelSigma : ℝ := Real.sqrt (residueVar / (numPasses : ℝ)) * (size : ℝ)
  let kernelRadius : ℤ := ⌊levelSigma * kernelResolution * kernelWidth⌋
  { kernel := generateGaussianKernel kernelRadius.toNat (levelSigma * kernelResolution)
    kernelScale := 1 / kernelResolution
    numPasses := numPasses }

/-- The constructor loop over `mipLevelSigmas` (lines 105–135), threading
`lastVariance`; level `i` fails when `residueVar < 0`, and on success
`lastVariance` is advanced to `desiredVar` (line 115). -/
noncomputable def buildPlanAux (N minNumPasses : ℤ) (kernelWidth kernelResolution : ℝ) :
    ℕ → ℝ → List ℝ → Except String (List PlanEntry)
  | _, _, [] => .ok []
  | i, lastVariance, sigma :: rest =>
    let desiredVar := sigma * sigma
    let residueVar := desiredVar - lastVariance
    if residueVar < 0 then
      .error "mipLevelSigmas must be a monotonically increasing sequence"
    else
      match buildPlanAux N minNumPasses kernelWidth kernelResolution (i + 1) desiredVar rest with
      | .error e => .error e
      | .ok tail =>
          .ok (mkPlanEntry (levelSize N i) minNumPasses kernelWidth kernelResolution
            residueVar :: tail)

/-- Closed form of the successful plan: level `i` gets residue
`σᵢ² − σᵢ₋₁²` where `prev` is the previous sigma (`σ₋₁ = 0`). -/
noncomputable def planSpec (N minNumPasses : ℤ) (kernelWidth kernelResolution : ℝ) :
    ℕ → ℝ → List ℝ → List PlanEntry
  | _, _, [] => []
  | i, prev, sigma :: rest =>
    mkPlanEntry (levelSize N i) minNumPasses kernelWidth kernelResolution
      (sigma * sigma - prev * prev) ::
      planSpec N minNumPasses kernelWidth kernelResolution (i + 1) sigma rest

/-- `(options.minNumPasses || 2) | 0`. -/
def effMinNumPasses (o : LtasgOptions) : ℤ :=
  if o.minNumPasses = 0 then 2 else o.minNumPasses

/-- `options.kernelWidth || 3`. -/
noncomputable def effKernelWidth (o : LtasgOptions) : ℝ :=
  if o.kernelWidth = 0 then 3 else o.kernelWidth

/-- `options.kernelResolution || 2`. -/
noncomputable def effKernelResolution (o : LtasgOptions) : ℝ :=
  if o.kernelResolution = 0 then 2 else o.kernelResolution

/-- The whole constructor: builds `this.plan` from the options
(`this.size = options.imageSize | 0` is the `imageSize` field). -/
noncomputable def buildPlan (o : LtasgOptions) : Except String (List PlanEntry) :=
  buildPlanAux o.imageSize (effMinNumPasses o) (effKernelWidth o) (effKernelResolution o)
    0 0 o.mipLevelSigmas

/-- The level-`l` residue variance `σ_l² − σ_{l−1}²` (with `σ_{−1} = 0`). -/
noncomputable def residueAt (o : LtasgOptions) (l : ℕ) : ℝ :=
  (o.mipLevelSigmas.getD l 0) ^ 2 -
    if l = 0 then 0 else (o.mipLevelSigmas.getD (l - 1) 0) ^ 2

/-- The level-`l` pass count `max(⌈residueVar / sigmaLimit²⌉, minNumPasses)`
with `sigmaLimit = 0.5 / ω`. -/
noncomputable def numPassesAt (o : LtasgOptions) (l : ℕ) : ℤ :=
  max ⌈residueAt o l / (0.5 / effKernelWidth o * (0.5 / effKernelWidth o))⌉
    (effMinNumPasses o)

/-- The level-`l` per-pass sigma in pixels, `√(residueVar / numPasses) · N_l`. -/
noncomputable def levelSigmaAt (o : LtasgOptions) (l : ℕ) : ℝ :=
  Real.sqrt (residueAt o l / ((numPassesAt o l : ℤ) : ℝ)) *
    ((levelSize o.imageSize l : ℤ) : ℝ)


/-! ## Core convolution driver (`CoreInstance.ltasg`, ts/wasm.ts lines 136–236) -/

/-- Modelled from the spec: `emg_ltasg_single` — the single-axis spherical
convolution of the Rust/WebAssembly core, whose source is not among the
TypeScript files embedded here — convolves all six faces along one axis
`phase ∈ {0,1,2}` using the kernel and kernel scale, writing every texel of
the six destination faces.  It is kept abstract: a `PassFn` maps the face
side, the kernel, the kernel scale and the phase, together with the six
source faces, to the six destination faces. -/
def PassFn : Type :=
  ℤ → List ℝ → ℝ → ℕ → List Face → List Face

/-- A fixed-length typed-array view: the first `n` floats of `l`, padded
with zeros past the end of `l`.  (The padding case never arises for a pass
function that, like `emg_ltasg_single`, writes all `6·elements` floats.) -/
def padTake (l : List ℝ) (n : ℕ) : List ℝ :=
  l.take n ++ List.replicate (n - l.length) 0

/-- Modelled from the spec: after one `emg_ltasg_single` call the six
destination faces occupy exactly `elements` floats each in linear memory;
reading them back yields exactly-`elements`-long faces. -/
def normalizeFaces (elements : ℕ) (fs : List Face) : List Face :=
  (List.range 6).map fun i => padTake (fs.getD i []) elements

open Classical in
/-- The validation prologue of `CoreInstance.ltasg` (ts/wasm.ts lines
145–189): the message of the first failing check, or `none`.  Every check
precedes any write in the source. -/
noncomputable def ltasgError (inFaces outFaces : List Face) (size : ℤ)
    (format : ImageFormat) (kernel : List ℝ) (kernelScale : ℝ)
    (numPasses : ℤ) : Option String :=
  if inFaces.length < 6 then some "inFaces.length must be at least 6"
  else if outFaces.length < 6 then some "outFaces.length must be at least 6"
  else if ∃ i, i < 6 ∧ ((inFaces.getD i []).length < (size * size * 4).toNat ∨
      (outFaces.getD i []).length < (size * size * 4).toNat) then
    some "a face is smaller than size*size*4"
  else if format ≠ ImageFormat.RgbaF32PremulAlpha then
    some "format must be RgbaF32PremulAlpha"
  else if kernel.length % 2 = 0 then some "kernel must be odd-sized"
  else if ¬ (kernelScale > 0) then some "kernelScale must be a positive number"
  else if ¬ ((size : ℝ) > ((kernel.length / 2 : ℕ) : ℝ) * kernelScale * 1.8) then
    some "kernel is too large compared to the image size"
  else if size > 32768 then some "The image is too large"
  else if numPasses < 0 then some "numPasses must be a positive number"
  else none

/-- The write phase of `CoreInstance.ltasg` (ts/wasm.ts lines 191–235).
The upload loop writes each face at stride `elements`, a later face's
upload overwriting any spill of an earlier, longer one (face 5 spills only
into the scratch half of the buffer), so working face `i` holds the first
`elements` floats of `inFaces[i]`; each of the `numPasses` rounds applies
the pass function with phases 0, 1, 2, ping-ponging buffers; the read-back
views are exactly `elements` floats long and `.set` leaves each output
face's tail beyond `elements` unchanged. -/
noncomputable def ltasgRun (passFn : PassFn) (inFaces outFaces : List Face)
    (size : ℤ) (kernel : List ℝ) (kernelScale : ℝ) (numPasses : ℤ) : List Face :=
  let elements := (size * size * 4).toNat
  let upload : List Face :=
    (List.range 6).map fun i => padTake (inFaces.getD i []) elements
  let round : List Face → List Face := fun fs =>
    normalizeFaces elements (passFn size kernel kernelScale 2
      (normalizeFaces elements (passFn size kernel kernelScale 1
        (normalizeFaces elements (passFn size kernel kernelScale 0 fs)))))
  let final := round^[numPasses.toNat] upload
  ((List.range 6).map fun i =>
      padTake (final.getD i []) elements ++ (outFaces.getD i []).drop elements) ++
    outFaces.drop 6

/-- `CoreInstance.ltasg` (ts/wasm.ts lines 136–236).  Returns the updated
`outFaces` paired with `none`, or — when the source throws — the original
`outFaces` unchanged paired with `some message`. -/
noncomputable def CoreInstance.ltasg (passFn : PassFn) (inFaces outFaces : List Face)
    (size : ℤ) (format : ImageFormat) (kernel : List ℝ) (kernelScale : ℝ)
    (numPasses : ℤ) : List Face × Option String :=
  match ltasgError inFaces outFaces size format kernel kernelScale numPasses with
  | some e => (outFaces, some e)
  | none => (ltasgRun passFn inFaces outFaces size kernel kernelScale numPasses, none)


/-! ## Image helpers (`ts/image.ts`) -/

/-- `coerceToRgbaF32PremulAlphaFrom` (ts/image.ts lines 289–342) on
`Float32Array` inputs — the embedding's faces are float arrays:
`RgbaF32PremulAlpha` returns the image itself (the caller's own array),
while both 8-bit formats throw "Invalid type" when handed a
`Float32Array`. -/
def coerceToRgbaF32PremulAlphaFrom (image : Face) (format : ImageFormat) :
    Except String Face :=
  match format with
  | ImageFormat.RgbaF32PremulAlpha => .ok image
  | _ => .error "Invalid type for RgbaF32PremulAlpha"

/-- JS `x & 0xffff` on the 16-bit table index; the encoder only feeds it
non-negative finite values, where 32-bit truncation agrees with
`⌊·⌋ % 2^16`. -/
noncomputable def toUint16 (x : ℝ) : ℕ := (⌊x⌋ % 65536 : ℤ).toNat

/-- Storing a float into a `Uint8Array` element: truncation modulo 256. -/
noncomputable def toUint8 (x : ℝ) : ℝ := ((⌊x⌋ % 256 : ℤ) : ℝ)

open Classical in
/-- `SRGB_ENCODE_TABLE[j]` as a function of the index `j` (lines 375–378). -/
noncomputable def SRGB_ENCODE_TABLE (j : ℕ) : ℝ :=
  let i := min ((j : ℝ) / 65000) 1
  ((⌊(if i < 0.0031308 then 12.92 * i else 1.055 * i ^ ((1 : ℝ) / 2.4) - 0.055) * 255 +
    0.5⌋ : ℤ) : ℝ)

open Classical in
/-- `coerceRgbaF32PremulAlphaTo` (lines 344–368): the identity for the
float format; for the two 8-bit formats, a same-length array of encoded
bytes.  `scale = 65000 / a` is `Infinity` in JS when `a = 0`; Lean's
`x / 0 = 0` stands in — no claim depends on the encoded sample values,
only on the length. -/
noncomputable def coerceRgbaF32PremulAlphaTo (image : Face) (format : ImageFormat) : Face :=
  match format with
  | ImageFormat.RgbaF32PremulAlpha => image
  | _ =>
    (List.range image.length).map fun idx =>
      let base := (idx / 4) * 4
      let a := image.getD (base + 3) 0
      let scale := 65000 / a
      if idx % 4 = 3 then toUint8 (a * 255 + 0.5)
      else toUint8 (SRGB_ENCODE_TABLE (toUint16 (image.getD idx 0 * scale)))

/-- One output float of the 2×-box branch of `resampleRgbF32` (lines
396–417): output texel `(x, y)` channel `c` averages the four source
texels `(2x, 2y) .. (2x+1, 2y+1)` (with `Math.fround` as the identity). -/
noncomputable def boxSample (inImage : Face) (inWidth outWidth : ℤ) (idx : ℕ) : ℝ :=
  let c : ℤ := (idx % 4 : ℕ)
  let x : ℤ := ((idx / 4 : ℕ) : ℤ) % outWidth
  let y : ℤ := ((idx / 4 : ℕ) : ℤ) / outWidth
  let in1 := (y * 2 * inWidth + x * 2) * 4 + c
  let in2 := in1 + inWidth * 4
  (inImage.getD in1.toNat 0 + inImage.getD (in1 + 4).toNat 0 +
    (inImage.getD in2.toNat 0 + inImage.getD (in2 + 4).toNat 0)) * 0.25

/-- One output float of the bilinear branch of `resampleRgbF32` (lines
418–472), with `Math.fround` as the identity (so the incremental additions
`inX += inDX`, `inY += inDY` telescope into closed forms). -/
noncomputable def bilinearSample (inImage : Face)
    (inWidth inHeight outWidth outHeight : ℤ) (idx : ℕ) : ℝ :=
  let c : ℤ := (idx % 4 : ℕ)
  let x : ℤ := ((idx / 4 : ℕ) : ℤ) % outWidth
  let y : ℤ := ((idx / 4 : ℕ) : ℤ) / outWidth
  let inY : ℝ := 0.5 * inHeight / outHeight - 0.5 + y * ((inHeight : ℝ) / outHeight)
  let inX : ℝ := 0.5 * inWidth / outWidth - 0.5 + x * ((inWidth : ℝ) / outWidth)
  let inBase1 : ℤ := ⌊inY⌋ * inWidth * 4
  let inBase2 : ℤ := ⌈inY⌉ * inWidth * 4
  let facY2 : ℝ := inY - ⌊inY⌋
  let facY1 : ℝ := 1 - facY2
  let x1 : ℤ := ⌊inX⌋ * 4
  let x2 : ℤ := ⌈inX⌉ * 4
  let facX2 : ℝ := inX - ⌊inX⌋
  let facX1 : ℝ := 1 - facX2
  let s1 := inImage.getD (inBase1 + x1 + c).toNat 0 * facY1 +
    inImage.getD (inBase2 + x1 + c).toNat 0 * facY2
  let s2 := inImage.getD (inBase1 + x2 + c).toNat 0 * facY1 +
    inImage.getD (inBase2 + x2 + c).toNat 0 * facY2
  s1 * facX1 + s2 * facX2

open Classical in
/-- `resampleRgbF32` (lines 380–475): rejects magnification, otherwise
returns a fresh `outWidth·outHeight·4`-float array, box-filtered when the
input is exactly twice the output size and bilinear otherwise. -/
noncomputable def resampleRgbF32 (inImage : Face)
    (inWidth inHeight outWidth outHeight : ℤ) : Except String Face :=
  if inWidth < outWidth ∨ inHeight < outHeight then
    .error "Does not support magnification yet"
  else if inWidth = outWidth * 2 ∧ inHeight = outHeight * 2 then
    .ok ((List.range (outWidth * outHeight * 4).toNat).map fun idx =>
      boxSample inImage inWidth outWidth idx)
  else
    .ok ((List.range (outWidth * outHeight * 4).toNat).map fun idx =>
      bilinearSample inImage inWidth inHeight outWidth outHeight idx)

/-! ## Pipeline driver (`LtasgBlur.process`, ts/ltasgblur.ts lines 143–206) -/

/-- The state of an `LtasgBlur` after construction: `this.size` and
`this.plan`. -/
structure LtasgBlurT where
  size : ℤ
  plan : List PlanEntry

/-- One step of the `table(6, ...)` callback of `process` (lines 155–169):
coerce one input face and reject it when shorter than `size·size·4`.  (The
"make it an unique object" duplication has no observable effect at the
value level; the store model below makes it explicit.) -/
noncomputable def coerceFace (N2 : ℕ) (inFormat : ImageFormat) (im : Face) :
    Except String Face :=
  match coerceToRgbaF32PremulAlphaFrom im inFormat with
  | .error e => .error e
  | .ok f32 => if f32.length < N2 then .error "One of the input images is too small"
    else .ok f32

/-- `table(6, i => ...)`: the six coerced base-level faces, in order. -/
noncomputable def baseLevelAux (N2 : ℕ) (inFormat : ImageFormat) (input : List Face) :
    List ℕ → Except String (List Face)
  | [] => .ok []
  | i :: is =>
    match coerceFace N2 inFormat (input.getD i []) with
    | .error e => .error e
    | .ok f =>
      match baseLevelAux N2 inFormat input is with
      | .error e => .error e
      | .ok fs => .ok (f :: fs)

/-- The base level of `process` (lines 155–169). -/
noncomputable def baseLevel (N : ℤ) (inFormat : ImageFormat) (input : List Face) :
    Except String (List Face) :=
  baseLevelAux (N * N * 4).toNat inFormat input (List.range 6)

/-- `currentLevel.map(image => resampleRgbF32(...))` (lines 181–183),
propagating the first failure as the thrown exception. -/
noncomputable def resampleAll (curSize newSize : ℤ) : List Face → Except String (List Face)
  | [] => .ok []
  | f :: fs =>
    match resampleRgbF32 f curSize curSize newSize newSize with
    | .error e => .error e
    | .ok f' =>
      match resampleAll curSize newSize fs with
      | .error e => .error e
      | .ok fs' => .ok (f' :: fs')

open Classical in
/-- The per-level loop of `process` (lines 172–203): for each plan entry,
halve the size and resample when past level 0 (`doResample` is `false`
only for the first entry), blur in place through the core, and emit the
level, converting it when the requested output format is not the float
format.  Errors thrown by the core or the resampler propagate. -/
noncomputable def processLevels (passFn : PassFn) (outFormat : ImageFormat) :
    Bool → List Face → ℤ → List PlanEntry → Except String (List (List Face))
  | _, _, _, [] => .ok []
  | doResample, cur, curSize, entry :: rest =>
    let newSize := if doResample then (curSize + 1) / 2 else curSize
    match (if doResample then resampleAll curSize newSize cur else .ok cur) with
    | .error e => .error e
    | .ok cur2 =>
      match CoreInstance.ltasg passFn cur2 cur2 newSize
          ImageFormat.RgbaF32PremulAlpha entry.kernel entry.kernelScale
          entry.numPasses with
      | (blurred, some e) => .error e
      | (blurred, none) =>
        match processLevels passFn outFormat true blurred newSize rest with
        | .error e => .error e
        | .ok tail =>
          .ok ((if outFormat ≠ ImageFormat.RgbaF32PremulAlpha then
              blurred.map (fun im => coerceRgbaF32PremulAlphaTo im outFormat)
            else blurred) :: tail)

/-- `LtasgBlur.process` (lines 143–206) for `Float32Array` input faces. -/
noncomputable def LtasgBlur.process (passFn : PassFn) (b : LtasgBlurT)
    (input : List Face) (inFormat outFormat : ImageFormat) :
    Except String (List (List Face)) :=
  if input.length < 6 then .error "input.length must be at least 6"
  else
    match baseLevel b.size inFormat input with
    | .error e => .error e
    | .ok base => processLevels passFn outFormat false base b.size b.plan

/-- The size recurrence of the per-level loop: level 0 keeps the size and
each further level halves it, rounding up (`newSize = (newSize + 1) >> 1`). -/
def sizeAt (s : ℤ) : ℕ → ℤ
  | 0 => s
  | l + 1 => sizeAt ((s + 1) / 2) l


/-- A concrete 8-float face (a 1×1 RGBA face with 4 extra floats of backing
storage), used to evaluate the pipeline on explicit inputs. -/
noncomputable def face8C : Face := [0, 0, 0, 0, 0, 0, 0, 0]

/-- Six copies of `face8C`: a concrete cube-map input. -/
noncomputable def inputC : List Face := [face8C, face8C, face8C, face8C, face8C, face8C]

/-- The identity pass function, standing in for `emg_ltasg_single` when
evaluating on explicit inputs. -/
def passIdC : PassFn := fun _ _ _ _ fs => fs


/-! ## IEEE behaviour of the kernel builder at σ = 0 (for the kernel-sum
invariant) -/

/-- JS double addition with NaN tracked (`none` is NaN). -/
def jsAdd : Option ℝ → Option ℝ → Option ℝ
  | some a, some b => some (a + b)
  | _, _ => none

/-- JS double subtraction with NaN tracked. -/
def jsSub : Option ℝ → Option ℝ → Option ℝ
  | some a, some b => some (a - b)
  | _, _ => none

/-- JS double multiplication with NaN tracked. -/
def jsMul : Option ℝ → Option ℝ → Option ℝ
  | some a, some b => some (a * b)
  | _, _ => none

open Classical in
/-- JS double division with NaN tracked.  Division by zero yields NaN; in
JS, `x/0` is `±Infinity` for `x ≠ 0` and NaN exactly for `0/0`, and the
instance evaluated below (`radius = 0`, `σ = 0`) only ever divides by zero
in the `0/0` form, where the model agrees with JS. -/
noncomputable def jsDiv : Option ℝ → Option ℝ → Option ℝ
  | some a, some b => if b = 0 then none else some (a / b)
  | _, _ => none

/-- JS `Math.exp` with NaN tracked. -/
noncomputable def jsExp : Option ℝ → Option ℝ
  | some a => some (Real.exp a)
  | none => none

/-- `generateGaussianKernel` under JS double semantics with NaN tracked:
the same loop as `generateGaussianKernel`, with `x ** 2` as `x·x` (exact
for doubles). -/
noncomputable def generateGaussianKernelJS (radius : ℕ) (sigma : Option ℝ) :
    List (Option ℝ) :=
  let v := (List.range (2 * radius + 1)).map fun (i : ℕ) =>
    jsExp (jsMul (some (-(0.5)))
      (jsMul (jsDiv (jsSub (some (i : ℝ)) (some (radius : ℝ))) sigma)
        (jsDiv (jsSub (some (i : ℝ)) (some (radius : ℝ))) sigma)))
  let sum := v.foldl jsAdd (some 0)
  v.map fun x => jsMul x (jsDiv (some 1) sum)


/-! ## Reference-level model of `process` (aliasing and mutation) -/

/-- A heap of float arrays; a reference is an index into the heap. -/
abbrev Store := List Face

/-- Dereference. -/
def Store.read (st : Store) (r : ℕ) : Face := st.getD r []

/-- In-place overwrite of the array behind `r` (`TypedArray.set`). -/
def Store.write (st : Store) (r : ℕ) (f : Face) : Store := st.set r f

/-- `new Float32Array(...)`: a fresh array, returning its reference. -/
def Store.alloc (st : Store) (f : Face) : Store × ℕ := (st ++ [f], st.length)

/-- Allocate one fresh array per face. -/
def allocAll : Store → List Face → Store × List ℕ
  | st, [] => (st, [])
  | st, f :: fs =>
    match allocAll (st ++ [f]) fs with
    | (st2, rs) => (st2, st.length :: rs)

/-- The base-level loop of `process` (lines 155–169) at the reference
level, for `Float32Array` inputs: in the float format the coercion returns
the caller's own array (`f32 === img`), so a fresh duplicate is allocated
(`new Float32Array(f32)`); then the size check runs.  For the 8-bit
formats a float input throws "Invalid type", as in
`coerceToRgbaF32PremulAlphaFrom`. -/
noncomputable def dupFaces (N2 : ℕ) (inFormat : ImageFormat) :
    Store → List ℕ → Store × Except String (List ℕ)
  | st, [] => (st, .ok [])
  | st, r :: rs =>
    match inFormat with
    | ImageFormat.RgbaF32PremulAlpha =>
      if (st.read r).length < N2 then
        (st ++ [st.read r], .error "One of the input images is too small")
      else
        match dupFaces N2 inFormat (st ++ [st.read r]) rs with
        | (st2, .ok rs2) => (st2, .ok (st.length :: rs2))
        | (st2, .error e) => (st2, .error e)
    | _ => (st, .error "Invalid type for RgbaF32PremulAlpha")

/-- `core.ltasg(currentLevel, currentLevel, ...)` (line 188) at the
reference level: read the faces, run the value-level model, and on success
write the six output faces back through the six references.  On an
exception nothing has been written. -/
noncomputable def ltasgStore (passFn : PassFn) (st : Store) (refs : List ℕ)
    (size : ℤ) (kernel : List ℝ) (kernelScale : ℝ) (numPasses : ℤ) :
    Store × Option String :=
  match CoreInstance.ltasg passFn (refs.map st.read) (refs.map st.read) size
      ImageFormat.RgbaF32PremulAlpha kernel kernelScale numPasses with
  | (_, some e) => (st, some e)
  | (newFaces, none) =>
    ((List.range 6).foldl
      (fun s i => s.write (refs.getD i 0) (newFaces.getD i [])) st, none)

/-- `currentLevel.map(image => resampleRgbF32(...))` (lines 181–183) at the
reference level: fresh output arrays. -/
noncomputable def resampleStore (curSize newSize : ℤ) (st : Store) (refs : List ℕ) :
    Store × Except String (List ℕ) :=
  match resampleAll curSize newSize (refs.map st.read) with
  | .error e => (st, .error e)
  | .ok fs =>
    match allocAll st fs with
    | (st2, rs) => (st2, .ok rs)

open Classical in
/-- The emitted level (lines 198–202): fresh encoded arrays when the output
format is not the float format, the blurred faces themselves otherwise. -/
noncomputable def coerceOutStore (outFormat : ImageFormat) (st : Store)
    (refs : List ℕ) : Store × List ℕ :=
  if outFormat ≠ ImageFormat.RgbaF32PremulAlpha then
    allocAll st (refs.map fun r => coerceRgbaF32PremulAlphaTo (st.read r) outFormat)
  else (st, refs)

open Classical in
/-- The per-level loop of `process` at the reference level. -/
noncomputable def processLevelsStore (passFn : PassFn) (outFormat : ImageFormat) :
    Bool → Store → List ℕ → ℤ → List PlanEntry →
      Store × Except String (List (List ℕ))
  | _, st, _, _, [] => (st, .ok [])
  | doResample, st, refs, curSize, entry :: rest =>
    let newSize := if doResample then (curSize + 1) / 2 else curSize
    match (if doResample then resampleStore curSize newSize st refs
        else (st, .ok refs)) with
    | (st1, .error e) => (st1, .error e)
    | (st1, .ok refs1) =>
      match ltasgStore passFn st1 refs1 newSize entry.kernel entry.kernelScale
          entry.numPasses with
      | (st2, some e) => (st2, .error e)
      | (st2, none) =>
        match coerceOutStore outFormat st2 refs1 with
        | (st3, emitted) =>
          match processLevelsStore passFn outFormat true st3 refs1 newSize rest with
          | (st4, .error e) => (st4, .error e)
          | (st4, .ok tail) => (st4, .ok (emitted :: tail))

/-- `LtasgBlur.process` at the reference level: the caller's heap holds the
input arrays; the result pairs the final heap with the emitted level
references (or the thrown message). -/
noncomputable def processStore (passFn : PassFn) (b : LtasgBlurT) (st : Store)
    (inRefs : List ℕ) (inFormat outFormat : ImageFormat) :
    Store × Except String (List (List ℕ)) :=
  if inRefs.length < 6 then (st, .error "input.length must be at least 6")
  else
    match dupFaces (b.size * b.size * 4).toNat inFormat st (inRefs.take 6) with
    | (st1, .error e) => (st1, .error e)
    | (st1, .ok baseRefs) =>
      processLevelsStore passFn outFormat false st1 baseRefs b.size b.plan

/-! ### Basic facts about the kernel builder -/

theorem gaussianWeights_length (radius : ℕ) (sigma : ℝ) :
    (gaussianWeights radius sigma).length = 2 * radius + 1 := by
  simp only [gaussianWeights, List.length_map, List.length_range]

theorem gaussianWeights_getElem (radius : ℕ) (sigma : ℝ) (i : ℕ)
    (h : i < (gaussianWeights radius sigma).length) :
    (gaussianWeights radius sigma)[i] =
      Real.exp (-(0.5) * (((i : ℝ) - (radius : ℝ)) / sigma) ^ 2) := by
  simp only [gaussianWeights, List.getElem_map, List.getElem_range]

theorem gaussianWeights_getD (radius : ℕ) (sigma : ℝ) (i : ℕ) (h : i < 2 * radius + 1) :
    (gaussianWeights radius sigma).getD i 0 =
      Real.exp (-(0.5) * (((i : ℝ) - (radius : ℝ)) / sigma) ^ 2) := by
  have hlen : i < (gaussianWeights radius sigma).length := by
    rw [gaussianWeights_length]; exact h
  rw [List.getD_eq_getElem?_getD, List.getElem?_eq_getElem hlen, Option.getD_some,
    gaussianWeights_getElem]

theorem gaussianWeights_sum_pos (radius : ℕ) (sigma : ℝ) :
    0 < (gaussianWeights radius sigma).sum := by
  apply List.sum_pos
  · intro x hx
    simp only [gaussianWeights, List.mem_map] at hx
    obtain ⟨i, _, rfl⟩ := hx
    exact Real.exp_pos _
  · simp only [← List.length_pos, gaussianWeights_length]
    omega

theorem generateGaussianKernel_length (radius : ℕ) (sigma : ℝ) :
    (generateGaussianKernel radius sigma).length = 2 * radius + 1 := by
  simp only [generateGaussianKernel, List.length_map, gaussianWeights_length]

theorem generateGaussianKernel_getD (radius : ℕ) (sigma : ℝ) (i : ℕ)
    (h : i < 2 * radius + 1) :
    (generateGaussianKernel radius sigma).getD i 0 =
      Real.exp (-(0.5) * (((i : ℝ) - (radius : ℝ)) / sigma) ^ 2) /
        (gaussianWeights radius sigma).sum := by
  have hlen : i < (gaussianWeights radius sigma).length := by
    rw [gaussianWeights_length]; exact h
  have hlen2 : i < (generateGaussianKernel radius sigma).length := by
    rw [generateGaussianKernel_length]; exact h
  rw [List.getD_eq_getElem?_getD, List.getElem?_eq_getElem hlen2, Option.getD_some]
  simp only [generateGaussianKernel, List.getElem_map, gaussianWeights_getElem radius sigma i hlen]
  rw [mul_one_div]

theorem generateGaussianKernel_sum (radius : ℕ) (sigma : ℝ) :
    (generateGaussianKernel radius sigma).sum = 1 := by
  have hpos := gaussianWeights_sum_pos radius sigma
  have : (generateGaussianKernel radius sigma).sum =
      (gaussianWeights radius sigma).sum * (1 / (gaussianWeights radius sigma).sum) := by
    simpa [generateGaussianKernel] using
      (List.sum_map_mul_right (gaussianWeights radius sigma) id
        (1 / (gaussianWeights radius sigma).sum))
  rw [this]
  field_simp

theorem generateGaussianKernel_symm (radius : ℕ) (sigma : ℝ) (i : ℕ)
    (h : i < 2 * radius + 1) :
    (generateGaussianKernel radius sigma).getD i 0 =
      (generateGaussianKernel radius sigma).getD (2 * radius - i) 0 := by
  have h2 : 2 * radius - i < 2 * radius + 1 := by omega
  rw [generateGaussianKernel_getD radius sigma i h,
    generateGaussianKernel_getD radius sigma (2 * radius - i) h2]
  have hcast : ((2 * radius - i : ℕ) : ℝ) = 2 * (radius : ℝ) - (i : ℝ) := by
    have : i ≤ 2 * radius := by omega
    push_cast [this]
    ring
  rw [hcast]
  congr 1
  congr 1
  have : (2 * (radius : ℝ) - (i : ℝ) - (radius : ℝ)) = -((i : ℝ) - (radius : ℝ)) := by ring
  rw [this, neg_div, neg_sq]

/-! ### Facts about the plan builder -/

theorem buildPlanAux_eq_planSpec (N m : ℤ) (kw kr : ℝ) :
    ∀ (sigmas : List ℝ) (i : ℕ) (prev : ℝ), 0 ≤ prev →
      List.Chain (· ≤ ·) prev sigmas →
      buildPlanAux N m kw kr i (prev * prev) sigmas =
        .ok (planSpec N m kw kr i prev sigmas) := by
  intro sigmas
  induction sigmas with
  | nil => intro i prev _ _; simp [buildPlanAux, planSpec]
  | cons sigma rest ih =>
    intro i prev hprev hchain
    rw [List.chain_cons] at hchain
    obtain ⟨hle, hchain⟩ := hchain
    have hsig : 0 ≤ sigma := le_trans hprev hle
    have hres : ¬ (sigma * sigma - prev * prev < 0) := by
      rw [not_lt, sub_nonneg]
      exact mul_self_le_mul_self hprev hle
    simp only [buildPlanAux]
    rw [if_neg hres, ih (i + 1) sigma hsig hchain]
    rfl

theorem planSpec_length (N m : ℤ) (kw kr : ℝ) :
    ∀ (sigmas : List ℝ) (i : ℕ) (prev : ℝ),
      (planSpec N m kw kr i prev sigmas).length = sigmas.length := by
  intro sigmas
  induction sigmas with
  | nil => intro i prev; simp [planSpec]
  | cons sigma rest ih => intro i prev; simp [planSpec, ih]

theorem planSpec_getD (N m : ℤ) (kw kr : ℝ) :
    ∀ (sigmas : List ℝ) (i : ℕ) (prev : ℝ) (l : ℕ), l < sigmas.length →
      (planSpec N m kw kr i prev sigmas).getD l default =
        mkPlanEntry (levelSize N (i + l)) m kw kr
          ((sigmas.getD l 0) * (sigmas.getD l 0) -
            (if l = 0 then prev else sigmas.getD (l - 1) 0) *
              (if l = 0 then prev else sigmas.getD (l - 1) 0)) := by
  intro sigmas
  induction sigmas with
  | nil => intro i prev l hl; simp at hl
  | cons sigma rest ih =>
    intro i prev l hl
    cases l with
    | zero => simp [planSpec]
    | succ l' =>
      have hl' : l' < rest.length := by simpa using hl
      simp only [planSpec, List.getD_cons_succ]
      rw [ih (i + 1) sigma l' hl']
      have harith : i + 1 + l' = i + (l' + 1) := by omega
      rw [harith]
      cases l' with
      | zero => simp
      | succ l'' => simp

theorem buildPlanAux_ok_iff (N m : ℤ) (kw kr : ℝ) :
    ∀ (sigmas : List ℝ) (i : ℕ) (prev : ℝ), 0 ≤ prev →
      (∀ σ ∈ sigmas, 0 ≤ σ) →
      ((∃ plan, buildPlanAux N m kw kr i (prev * prev) sigmas = .ok plan) ↔
        List.Chain (· ≤ ·) prev sigmas) := by
  intro sigmas
  induction sigmas with
  | nil =>
    intro i prev _ _
    simp [buildPlanAux, List.Chain.nil]
  | cons sigma rest ih =>
    intro i prev hprev hnn
    have hsig : 0 ≤ sigma := hnn sigma (by simp)
    have hnn' : ∀ σ ∈ rest, 0 ≤ σ := fun σ hσ => hnn σ (by simp [hσ])
    rw [List.chain_cons]
    by_cases hres : sigma * sigma - prev * prev < 0
    · have hlt : sigma < prev := by
        rw [sub_neg] at hres
        exact (mul_self_lt_mul_self_iff hsig hprev).2 hres
      constructor
      · intro ⟨plan, hplan⟩
        simp only [buildPlanAux, if_pos hres] at hplan
        exact absurd hplan (by simp)
      · intro ⟨hle, _⟩
        exact absurd hle (not_le.2 hlt)
    · have hle : prev ≤ sigma := by
        rw [not_lt, sub_nonneg] at hres
        exact (mul_self_le_mul_self_iff hprev hsig).2 hres
      constructor
      · intro ⟨plan, hplan⟩
        refine ⟨hle, ?_⟩
        simp only [buildPlanAux, if_neg hres] at hplan
        rcases hrec : buildPlanAux N m kw kr (i + 1) (sigma * sigma) rest with e | tail
        · rw [hrec] at hplan; simp at hplan
        · exact (ih (i + 1) sigma hsig hnn').1 ⟨tail, hrec⟩
      · intro ⟨_, hchain⟩
        obtain ⟨tail, htail⟩ := (ih (i + 1) sigma hsig hnn').2 hchain
        refine ⟨mkPlanEntry (levelSize N i) m kw kr (sigma * sigma - prev * prev) :: tail, ?_⟩
        simp only [buildPlanAux, if_neg hres]
        rw [htail]


/-! ### Claim theorems about the plan builder -/

/-- Helper: for non-decreasing non-negative sigmas the plan builds and each
level `l` stores `mkPlanEntry` of the residue `σ_l² − σ_{l−1}²`. -/
theorem plan_ok_entries (o : LtasgOptions)
    (hchain : List.Chain (· ≤ ·) 0 o.mipLevelSigmas) :
    ∃ plan, buildPlan o = .ok plan ∧ plan.length = o.mipLevelSigmas.length ∧
      ∀ l, l < o.mipLevelSigmas.length →
        plan.getD l default =
          mkPlanEntry (levelSize o.imageSize l) (effMinNumPasses o) (effKernelWidth o)
            (effKernelResolution o)
            ((o.mipLevelSigmas.getD l 0) ^ 2 -
              if l = 0 then 0 else (o.mipLevelSigmas.getD (l - 1) 0) ^ 2) := by
  have h0 : (0 : ℝ) * 0 = 0 := by ring
  have hok := buildPlanAux_eq_planSpec o.imageSize (effMinNumPasses o) (effKernelWidth o)
    (effKernelResolution o) o.mipLevelSigmas 0 0 le_rfl hchain
  rw [h0] at hok
  refine ⟨_, hok, planSpec_length _ _ _ _ _ _ _, ?_⟩
  intro l hl
  rw [planSpec_getD _ _ _ _ o.mipLevelSigmas 0 0 l hl]
  simp only [Nat.zero_add]
  congr 1
  by_cases h : l = 0
  · subst h; simp [pow_two]
  · simp only [if_neg h]; ring

/-- The `numPasses` stored by one level of the constructor. -/
theorem mkPlanEntry_numPasses (size m : ℤ) (kw kr R : ℝ) :
    (mkPlanEntry size m kw kr R).numPasses = max ⌈R / (0.5 / kw * (0.5 / kw))⌉ m := rfl

/-- The `kernelScale` stored by one level of the constructor. -/
theorem mkPlanEntry_kernelScale (size m : ℤ) (kw kr R : ℝ) :
    (mkPlanEntry size m kw kr R).kernelScale = 1 / kr := rfl

/-- The kernel stored by one level of the constructor: radius
`⌊levelSigma·κ·ω⌋` and builder σ `levelSigma·κ`. -/
theorem mkPlanEntry_kernel (size m : ℤ) (kw kr R : ℝ) :
    (mkPlanEntry size m kw kr R).kernel =
      generateGaussianKernel
        (⌊Real.sqrt (R / ((max ⌈R / (0.5 / kw * (0.5 / kw))⌉ m : ℤ) : ℝ)) * (size : ℝ) *
            kr * kw⌋).toNat
        (Real.sqrt (R / ((max ⌈R / (0.5 / kw * (0.5 / kw))⌉ m : ℤ) : ℝ)) * (size : ℝ) * kr) :=
  rfl

/-- C1: for every monotonically non-decreasing sequence of non-negative sigmas
the plan builder succeeds and the residue variance consumed at level `l` is
`σ_l² − σ_{l−1}²` (with `σ_{−1} = 0`): `lastVariance` is advanced by the
cumulative target `desiredVar = σ_l²` (line 115 of ts/ltasgblur.ts), so each
level's residue is a difference of absolute targets. -/
theorem plan_residue_decomposition (o : LtasgOptions)
    (hchain : List.Chain (· ≤ ·) 0 o.mipLevelSigmas) :
    ∃ plan, buildPlan o = .ok plan ∧ plan.length = o.mipLevelSigmas.length ∧
      ∀ l, l < o.mipLevelSigmas.length →
        plan.getD l default =
          mkPlanEntry (levelSize o.imageSize l) (effMinNumPasses o) (effKernelWidth o)
            (effKernelResolution o)
            ((o.mipLevelSigmas.getD l 0) ^ 2 -
              if l = 0 then 0 else (o.mipLevelSigmas.getD (l - 1) 0) ^ 2) :=
  plan_ok_entries o hchain

/-- Witness for C1 at `imageSize = 4`, `mipLevelSigmas = [0.1, 0.2]`. -/
theorem plan_residue_decomposition_witness :
    List.Chain (· ≤ ·) (0 : ℝ) [0.1, 0.2] ∧
      ∃ plan, buildPlan ⟨4, [0.1, 0.2], 2, 2, 3⟩ = .ok plan ∧ plan.length = 2 := by
  have hchain : List.Chain (· ≤ ·) (0 : ℝ) [0.1, 0.2] :=
    List.Chain.cons (by norm_num) (List.Chain.cons (by norm_num) List.Chain.nil)
  obtain ⟨plan, hok, hlen, -⟩ :=
    plan_residue_decomposition ⟨4, [0.1, 0.2], 2, 2, 3⟩ hchain
  exact ⟨hchain, plan, hok, by simpa using hlen⟩

/-- C2: every level of a valid plan stores
`numPasses = max(⌈residueVar/(0.5/ω)²⌉, minNumPasses)` (hence at least
`minNumPasses`), `kernelScale = 1/κ`, and a kernel built with radius
`⌊levelSigma·κ·ω⌋` (floor, not ceil) and Gaussian σ `levelSigma·κ` (tap
units), where `levelSigma = √(residueVar/numPasses)·N_l`. -/
theorem plan_entry_formulas (o : LtasgOptions)
    (hchain : List.Chain (· ≤ ·) 0 o.mipLevelSigmas)
    (l : ℕ) (hl : l < o.mipLevelSigmas.length) :
    ∃ plan, buildPlan o = .ok plan ∧
      (plan.getD l default).numPasses = numPassesAt o l ∧
      effMinNumPasses o ≤ (plan.getD l default).numPasses ∧
      (plan.getD l default).kernelScale = 1 / effKernelResolution o ∧
      (plan.getD l default).kernel =
        generateGaussianKernel
          (⌊levelSigmaAt o l * effKernelResolution o * effKernelWidth o⌋).toNat
          (levelSigmaAt o l * effKernelResolution o) ∧
      (plan.getD l default).kernel.length =
        2 * (⌊levelSigmaAt o l * effKernelResolution o * effKernelWidth o⌋).toNat + 1 := by
  obtain ⟨plan, hok, hlen, hent⟩ := plan_ok_entries o hchain
  refine ⟨plan, hok, ?_⟩
  rw [hent l hl]
  refine ⟨rfl, le_max_right _ _, rfl, rfl, ?_⟩
  exact generateGaussianKernel_length _ _

/-- Witness for C2 at `imageSize = 4`, `mipLevelSigmas = [0.1]`, level 0. -/
theorem plan_entry_formulas_witness :
    List.Chain (· ≤ ·) (0 : ℝ) [0.1] ∧ (0 : ℕ) < 1 ∧
      ∃ plan, buildPlan ⟨4, [0.1], 1, 2, 3⟩ = .ok plan ∧
        effMinNumPasses ⟨4, [0.1], 1, 2, 3⟩ ≤ (plan.getD 0 default).numPasses := by
  have hchain : List.Chain (· ≤ ·) (0 : ℝ) [0.1] :=
    List.Chain.cons (by norm_num) List.Chain.nil
  obtain ⟨plan, hok, -, hge, -, -, -⟩ :=
    plan_entry_formulas ⟨4, [0.1], 1, 2, 3⟩ hchain 0 (by norm_num)
  exact ⟨hchain, by norm_num, plan, hok, hge⟩

/-- A non-decreasing chain from 0 fails exactly on an adjacent descent,
for non-negative entries. -/
theorem not_chain_iff_descent (sigmas : List ℝ) (hnn : ∀ σ ∈ sigmas, 0 ≤ σ) :
    (¬ List.Chain (· ≤ ·) 0 sigmas) ↔
      ∃ l, l + 1 < sigmas.length ∧ sigmas.getD (l + 1) 0 < sigmas.getD l 0 := by
  have hgd : ∀ k (hk : k < sigmas.length), sigmas.getD k 0 = sigmas.get ⟨k, hk⟩ := by
    intro k hk
    rw [List.getD_eq_getElem?_getD, List.getElem?_eq_getElem hk]
    rfl
  rw [List.chain_iff_get]
  constructor
  · intro h
    by_contra hno
    push_neg at hno
    apply h
    refine ⟨fun hpos => hnn _ (List.get_mem _ _ hpos), ?_⟩
    intro i hi
    have hib : i + 1 < sigmas.length := by omega
    have hi2 : i < sigmas.length := by omega
    have := hno i hib
    rw [hgd i hi2, hgd (i + 1) hib] at this
    exact this
  · rintro ⟨l, hl, hlt⟩ ⟨h1, h2⟩
    have hl2 : l < sigmas.length := by omega
    have := h2 l (by omega)
    rw [hgd (l + 1) hl, hgd l hl2] at hlt
    exact absurd this (not_le.2 hlt)

/-- C6: with non-negative sigmas, the constructor throws the monotonicity
error iff the sigma sequence strictly decreases at some adjacent pair; a
non-decreasing sequence never triggers it. -/
theorem nonMonotonicSigmas_iff (o : LtasgOptions)
    (hnn : ∀ σ ∈ o.mipLevelSigmas, 0 ≤ σ) :
    (∃ e, buildPlan o = .error e) ↔
      ∃ l, l + 1 < o.mipLevelSigmas.length ∧
        o.mipLevelSigmas.getD (l + 1) 0 < o.mipLevelSigmas.getD l 0 := by
  have h0 : (0 : ℝ) * 0 = 0 := by ring
  have hiff := buildPlanAux_ok_iff o.imageSize (effMinNumPasses o) (effKernelWidth o)
    (effKernelResolution o) o.mipLevelSigmas 0 0 le_rfl hnn
  rw [h0] at hiff
  have hbp : (∃ plan, buildPlan o = .ok plan) ↔
      List.Chain (· ≤ ·) 0 o.mipLevelSigmas := hiff
  rw [← not_chain_iff_descent o.mipLevelSigmas hnn, ← hbp]
  cases hb : buildPlan o with
  | error e => simp [hb]
  | ok plan => simp [hb]

/-- Witness for C6 at the decreasing sequence `[0.2, 0.1]`. -/
theorem nonMonotonicSigmas_iff_witness :
    (∀ σ ∈ ([0.2, 0.1] : List ℝ), 0 ≤ σ) ∧
      ((∃ e, buildPlan ⟨4, [0.2, 0.1], 2, 2, 3⟩ = .error e) ↔
        ∃ l, l + 1 < ([0.2, 0.1] : List ℝ).length ∧
          ([0.2, 0.1] : List ℝ).getD (l + 1) 0 < ([0.2, 0.1] : List ℝ).getD l 0) := by
  have hnn : ∀ σ ∈ ([0.2, 0.1] : List ℝ), 0 ≤ σ := by
    intro σ hσ
    simp only [List.mem_cons, List.mem_singleton, List.not_mem_nil, or_false] at hσ
    rcases hσ with h | h <;> rw [h] <;> norm_num
  exact ⟨hnn, nonMonotonicSigmas_iff ⟨4, [0.2, 0.1], 2, 2, 3⟩ hnn⟩


/-- C7 counterexample: constructing an `LtasgBlur` with `imageSize = 8`,
`mipLevelSigmas = [0.4]` and the default `kernelWidth = 3`,
`kernelResolution = 2` does not fail: the constructor contains no
kernel-size guard, so the plan builds successfully. -/
theorem construction_n8_sigma04_succeeds :
    ∃ plan, buildPlan ⟨8, [0.4], 2, 2, 3⟩ = .ok plan := by
  have hchain : List.Chain (· ≤ ·) (0 : ℝ) [0.4] :=
    List.Chain.cons (by norm_num) List.Chain.nil
  obtain ⟨plan, hok, -, -⟩ := plan_ok_entries ⟨8, [0.4], 2, 2, 3⟩ hchain
  exact ⟨plan, hok⟩

/-- C7 amended: the construction succeeds, producing one level with
`numPasses = 6`, a 15-tap kernel (radius 7) and `kernelScale = 1/2`; the
kernel-size guard of `CoreInstance.ltasg` (`size > (kernel.length >> 1) ·
kernelScale · 1.8`) is checked at process time, and for this plan it also
passes, since `7 · 0.5 · 1.8 = 6.3 < 8`. -/
theorem construction_n8_sigma04_guard :
    (∃ plan, buildPlan ⟨8, [0.4], 2, 2, 3⟩ = .ok plan ∧
      plan.getD 0 default = mkPlanEntry 8 2 3 2 ((0.4 : ℝ) * 0.4 - 0 * 0)) ∧
    (mkPlanEntry 8 2 3 2 ((0.4 : ℝ) * 0.4 - 0 * 0)).numPasses = 6 ∧
    (mkPlanEntry 8 2 3 2 ((0.4 : ℝ) * 0.4 - 0 * 0)).kernel.length = 15 ∧
    (mkPlanEntry 8 2 3 2 ((0.4 : ℝ) * 0.4 - 0 * 0)).kernelScale = 1 / 2 ∧
    (8 : ℝ) >
      (((mkPlanEntry 8 2 3 2 ((0.4 : ℝ) * 0.4 - 0 * 0)).kernel.length / 2 : ℕ) : ℝ) *
        (mkPlanEntry 8 2 3 2 ((0.4 : ℝ) * 0.4 - 0 * 0)).kernelScale * 1.8 := by
  have hchain : List.Chain (· ≤ ·) (0 : ℝ) [0.4] :=
    List.Chain.cons (by norm_num) List.Chain.nil
  have h := buildPlanAux_eq_planSpec 8 2 3 2 [0.4] 0 0 le_rfl hchain
  rw [show (0 : ℝ) * 0 = 0 from by ring] at h
  have hbp : buildPlan ⟨8, [0.4], 2, 2, 3⟩ = .ok (planSpec 8 2 3 2 0 0 [0.4]) := by
    have he1 : effMinNumPasses ⟨8, [0.4], 2, 2, 3⟩ = 2 := by simp [effMinNumPasses]
    have he2 : effKernelWidth ⟨8, [0.4], 2, 2, 3⟩ = 3 := by simp [effKernelWidth]
    have he3 : effKernelResolution ⟨8, [0.4], 2, 2, 3⟩ = 2 := by simp [effKernelResolution]
    simp only [buildPlan, he1, he2, he3]
    exact h
  have hget : (planSpec 8 2 3 2 0 0 [0.4]).getD 0 default =
      mkPlanEntry 8 2 3 2 ((0.4 : ℝ) * 0.4 - 0 * 0) := by
    have hsz : levelSize 8 0 = 8 := by decide
    simp only [planSpec, List.getD_cons_zero, hsz]
  have hmax : max ⌈((0.4 : ℝ) * 0.4 - 0 * 0) / (0.5 / 3 * (0.5 / 3))⌉ (2 : ℤ) = 6 := by
    have hd : ((0.4 : ℝ) * 0.4 - 0 * 0) / (0.5 / 3 * (0.5 / 3)) = 144 / 25 := by norm_num
    rw [hd]
    have hc : (⌈(144 / 25 : ℝ)⌉ : ℤ) = 6 := by
      rw [Int.ceil_eq_iff]
      constructor <;> norm_num
    rw [hc]
    decide
  have hnp : (mkPlanEntry 8 2 3 2 ((0.4 : ℝ) * 0.4 - 0 * 0)).numPasses = 6 := by
    rw [mkPlanEntry_numPasses, hmax]
  have hsqrt_bounds : (7 : ℝ) ≤ Real.sqrt (2 / 75) * 48 ∧ Real.sqrt (2 / 75) * 48 < 8 := by
    have hnn : (0 : ℝ) ≤ 2 / 75 := by norm_num
    have hsq := Real.sq_sqrt hnn
    have hpos := Real.sqrt_nonneg (2 / 75 : ℝ)
    constructor
    · nlinarith [hsq, hpos]
    · nlinarith [hsq, hpos]
  have hfloor : (⌊Real.sqrt (((0.4 : ℝ) * 0.4 - 0 * 0) / ((6 : ℤ) : ℝ)) * ((8 : ℤ) : ℝ) *
      2 * 3⌋ : ℤ) = 7 := by
    have harg : ((0.4 : ℝ) * 0.4 - 0 * 0) / ((6 : ℤ) : ℝ) = 2 / 75 := by norm_num
    rw [harg]
    have hexp : Real.sqrt (2 / 75) * ((8 : ℤ) : ℝ) * 2 * 3 = Real.sqrt (2 / 75) * 48 := by
      push_cast
      ring
    rw [hexp, Int.floor_eq_iff]
    refine ⟨by exact_mod_cast hsqrt_bounds.1, ?_⟩
    have := hsqrt_bounds.2
    push_cast
    linarith
  have hkernel : (mkPlanEntry 8 2 3 2 ((0.4 : ℝ) * 0.4 - 0 * 0)).kernel.length = 15 := by
    rw [mkPlanEntry_kernel, hmax, generateGaussianKernel_length, hfloor]
    decide
  have hscale : (mkPlanEntry 8 2 3 2 ((0.4 : ℝ) * 0.4 - 0 * 0)).kernelScale = 1 / 2 := by
    rw [mkPlanEntry_kernelScale]
  refine ⟨⟨planSpec 8 2 3 2 0 0 [0.4], hbp, hget⟩, hnp, hkernel, hscale, ?_⟩
  rw [hkernel, hscale]
  norm_num

/-! ### Claim theorems about the kernel builder -/

/-- C3: for every radius `r ≥ 0` and `σ > 0`, `generateGaussianKernel(r, σ)`
has length `2r+1`, entry `i` equals `exp(−½·((i−r)/σ)²)` divided by the sum
of all unnormalised entries, the entries sum to 1, and the vector is
symmetric about its centre. -/
theorem generateGaussianKernel_spec (r : ℕ) (σ : ℝ) (_hσ : 0 < σ) :
    (generateGaussianKernel r σ).length = 2 * r + 1 ∧
    (∀ i, i < 2 * r + 1 →
      (generateGaussianKernel r σ).getD i 0 =
        Real.exp (-(0.5) * (((i : ℝ) - (r : ℝ)) / σ) ^ 2) /
          (gaussianWeights r σ).sum) ∧
    (generateGaussianKernel r σ).sum = 1 ∧
    (∀ i, i < 2 * r + 1 →
      (generateGaussianKernel r σ).getD i 0 =
        (generateGaussianKernel r σ).getD (2 * r - i) 0) :=
  ⟨generateGaussianKernel_length r σ,
   fun i hi => generateGaussianKernel_getD r σ i hi,
   generateGaussianKernel_sum r σ,
   fun i hi => generateGaussianKernel_symm r σ i hi⟩

/-- Witness for C3 at `r = 1`, `σ = 1`. -/
theorem generateGaussianKernel_spec_witness :
    (0 : ℝ) < 1 ∧ (generateGaussianKernel 1 1).length = 2 * 1 + 1 ∧
      (generateGaussianKernel 1 1).sum = 1 := by
  obtain ⟨hlen, -, hsum, -⟩ := generateGaussianKernel_spec 1 1 (by norm_num)
  exact ⟨by norm_num, hlen, hsum⟩

/-! ### Facts about the core convolution driver -/

theorem padTake_length (l : List ℝ) (n : ℕ) : (padTake l n).length = n := by
  simp only [padTake, List.length_append, List.length_take, List.length_replicate]
  omega

theorem padTake_of_le (l : List ℝ) (n : ℕ) (h : n ≤ l.length) :
    padTake l n = l.take n := by
  simp [padTake, Nat.sub_eq_zero_of_le h]

theorem padTake_idem (l : List ℝ) (n : ℕ) : padTake (padTake l n) n = padTake l n := by
  rw [padTake_of_le _ _ (le_of_eq (padTake_length l n).symm),
    List.take_of_length_le (le_of_eq (padTake_length l n))]

theorem getD_range_map (f : ℕ → List ℝ) (n i : ℕ) (d : List ℝ) (h : i < n) :
    ((List.range n).map f).getD i d = f i := by
  rw [List.getD_eq_getElem?_getD, List.getElem?_map, List.getElem?_range h]
  rfl

theorem getD_append_left {α} [Inhabited α] (l l' : List α) (i : ℕ) (d : α)
    (h : i < l.length) : (l ++ l').getD i d = l.getD i d := by
  rw [List.getD_eq_getElem?_getD, List.getD_eq_getElem?_getD,
    List.getElem?_append, if_pos h]

/-- The validation prologue fails iff one of the documented conditions
holds (given `numPasses ≥ 0`). -/
theorem ltasgError_ne_none_iff (inFaces outFaces : List Face) (size : ℤ)
    (format : ImageFormat) (kernel : List ℝ) (kernelScale : ℝ)
    (numPasses : ℤ) (hnp : 0 ≤ numPasses) :
    (ltasgError inFaces outFaces size format kernel kernelScale numPasses ≠ none ↔
      (inFaces.length < 6 ∨ outFaces.length < 6 ∨
        (∃ i, i < 6 ∧ ((inFaces.getD i []).length < (size * size * 4).toNat ∨
          (outFaces.getD i []).length < (size * size * 4).toNat)) ∨
        format ≠ ImageFormat.RgbaF32PremulAlpha ∨
        kernel.length % 2 = 0 ∨
        ¬ (kernelScale > 0) ∨
        (size : ℝ) ≤ ((kernel.length / 2 : ℕ) : ℝ) * kernelScale * 1.8 ∨
        size > 32768)) := by
  unfold ltasgError
  by_cases h1 : inFaces.length < 6
  · rw [if_pos h1]; exact iff_of_true (by simp) (Or.inl h1)
  rw [if_neg h1]
  by_cases h2 : outFaces.length < 6
  · rw [if_pos h2]; exact iff_of_true (by simp) (Or.inr (Or.inl h2))
  rw [if_neg h2]
  by_cases h3 : ∃ i, i < 6 ∧ ((inFaces.getD i []).length < (size * size * 4).toNat ∨
      (outFaces.getD i []).length < (size * size * 4).toNat)
  · rw [if_pos h3]; exact iff_of_true (by simp) (Or.inr (Or.inr (Or.inl h3)))
  rw [if_neg h3]
  by_cases h4 : format ≠ ImageFormat.RgbaF32PremulAlpha
  · rw [if_pos h4]; exact iff_of_true (by simp) (Or.inr (Or.inr (Or.inr (Or.inl h4))))
  rw [if_neg h4]
  by_cases h5 : kernel.length % 2 = 0
  · rw [if_pos h5]
    exact iff_of_true (by simp) (Or.inr (Or.inr (Or.inr (Or.inr (Or.inl h5)))))
  rw [if_neg h5]
  by_cases h6 : kernelScale > 0
  · rw [if_neg (not_not_intro h6)]
    by_cases h7 : (size : ℝ) > ((kernel.length / 2 : ℕ) : ℝ) * kernelScale * 1.8
    · rw [if_neg (not_not_intro h7)]
      by_cases h8 : size > 32768
      · rw [if_pos h8]
        exact iff_of_true (by simp)
          (Or.inr (Or.inr (Or.inr (Or.inr (Or.inr (Or.inr (Or.inr h8)))))))
      rw [if_neg h8, if_neg (not_lt.2 hnp)]
      refine iff_of_false (by simp) ?_
      rintro (h | h | h | h | h | h | h | h)
      exacts [absurd h h1, absurd h h2, absurd h h3, absurd h h4, absurd h h5,
        absurd h6 h, absurd h7 (not_lt.2 h), absurd h h8]
    · rw [if_pos h7]
      exact iff_of_true (by simp)
        (Or.inr (Or.inr (Or.inr (Or.inr (Or.inr (Or.inr (Or.inl (not_lt.1 h7))))))))
  · rw [if_pos h6]
    exact iff_of_true (by simp)
      (Or.inr (Or.inr (Or.inr (Or.inr (Or.inr (Or.inl h6))))))

/-- C4: given `numPasses ≥ 0`, `CoreInstance.ltasg` throws iff one of the
validation conditions holds — fewer than 6 input or output faces, a face
shorter than `4·size²`, a format other than `RgbaF32PremulAlpha`, an
even-length kernel, a non-positive `kernelScale`,
`size ≤ kernelRadius·kernelScale·1.8`, or `size > 32768` — and when it
throws, the output faces are returned unchanged (all validation precedes
any write). -/
theorem ltasg_error_iff (passFn : PassFn) (inFaces outFaces : List Face)
    (size : ℤ) (format : ImageFormat) (kernel : List ℝ) (kernelScale : ℝ)
    (numPasses : ℤ) (hnp : 0 ≤ numPasses) :
    ((CoreInstance.ltasg passFn inFaces outFaces size format kernel kernelScale
        numPasses).2 ≠ none ↔
      (inFaces.length < 6 ∨ outFaces.length < 6 ∨
        (∃ i, i < 6 ∧ ((inFaces.getD i []).length < (size * size * 4).toNat ∨
          (outFaces.getD i []).length < (size * size * 4).toNat)) ∨
        format ≠ ImageFormat.RgbaF32PremulAlpha ∨
        kernel.length % 2 = 0 ∨
        ¬ (kernelScale > 0) ∨
        (size : ℝ) ≤ ((kernel.length / 2 : ℕ) : ℝ) * kernelScale * 1.8 ∨
        size > 32768)) ∧
    ((CoreInstance.ltasg passFn inFaces outFaces size format kernel kernelScale
        numPasses).2 ≠ none →
      (CoreInstance.ltasg passFn inFaces outFaces size format kernel kernelScale
        numPasses).1 = outFaces) := by
  have he := ltasgError_ne_none_iff inFaces outFaces size format kernel kernelScale
    numPasses hnp
  unfold CoreInstance.ltasg
  cases herr : ltasgError inFaces outFaces size format kernel kernelScale numPasses with
  | some e =>
    rw [herr] at he
    exact ⟨iff_of_true (by simp) (he.mp (by simp)), fun _ => rfl⟩
  | none =>
    rw [herr] at he
    refine ⟨iff_of_false (by simp) ?_, fun hc => absurd rfl hc⟩
    intro hD
    exact (he.mpr hD) rfl

/-- Witness for C4: a fully valid call (`size = 1`, six 4-float faces,
one-tap kernel, `numPasses = 0`) does not throw. -/
theorem ltasg_error_iff_witness :
    (0 : ℤ) ≤ 0 ∧
      (CoreInstance.ltasg (fun _ _ _ _ fs => fs)
        [[0, 0, 0, 0], [0, 0, 0, 0], [0, 0, 0, 0], [0, 0, 0, 0], [0, 0, 0, 0], [0, 0, 0, 0]]
        [[0, 0, 0, 0], [0, 0, 0, 0], [0, 0, 0, 0], [0, 0, 0, 0], [0, 0, 0, 0], [0, 0, 0, 0]]
        1 ImageFormat.RgbaF32PremulAlpha [1] 1 0).2 = none := by
  refine ⟨le_rfl, ?_⟩
  have h := ltasg_error_iff (fun _ _ _ _ fs => fs)
    [[0, 0, 0, 0], [0, 0, 0, 0], [0, 0, 0, 0], [0, 0, 0, 0], [0, 0, 0, 0], [0, 0, 0, 0]]
    [[0, 0, 0, 0], [0, 0, 0, 0], [0, 0, 0, 0], [0, 0, 0, 0], [0, 0, 0, 0], [0, 0, 0, 0]]
    1 ImageFormat.RgbaF32PremulAlpha [1] 1 0 le_rfl
  by_contra hne
  have hD := h.1.mp hne
  rcases hD with h' | h' | h' | h' | h' | h' | h' | h'
  · simp at h'
  · simp at h'
  · obtain ⟨i, hi, hc⟩ := h'
    interval_cases i <;> simp_all
  · exact h' rfl
  · simp at h'
  · exact h' (by norm_num)
  · norm_num at h'
  · norm_num at h'

/-- With `numPasses = 0` the write phase copies each input face's first
`size²·4` floats to the corresponding output face. -/
theorem ltasgRun_zero (passFn : PassFn) (inFaces outFaces : List Face)
    (size : ℤ) (kernel : List ℝ) (kernelScale : ℝ) (i : ℕ) (hi : i < 6)
    (hin : (size * size * 4).toNat ≤ (inFaces.getD i []).length) :
    ((ltasgRun passFn inFaces outFaces size kernel kernelScale 0).getD i []).take
        (size * size * 4).toNat =
      (inFaces.getD i []).take (size * size * 4).toNat := by
  unfold ltasgRun
  simp only [Int.toNat_zero, Function.iterate_zero, id_eq]
  rw [getD_append_left _ _ i [] (by simp [hi]), getD_range_map _ 6 i [] hi,
    getD_range_map _ 6 i [] hi, padTake_idem, List.take_append_eq_append_take,
    padTake_length, Nat.sub_self, List.take_zero, List.append_nil,
    List.take_of_length_le (le_of_eq (padTake_length _ _)), padTake_of_le _ _ hin]

/-- C10: `CoreInstance.ltasg` called with `numPasses = 0` and otherwise valid
arguments does not throw (its guard rejects only `numPasses < 0`, despite the
error message claiming it must be positive), runs zero convolution passes
(the result does not depend on the pass function), and each of the six output
faces has its first `4·size²` elements equal to the corresponding input
face's (identity copy through the ping-pong buffers). -/
theorem ltasg_zero_passes (passFn : PassFn) (inFaces outFaces : List Face)
    (size : ℤ) (kernel : List ℝ) (kernelScale : ℝ)
    (h1 : 6 ≤ inFaces.length) (h2 : 6 ≤ outFaces.length)
    (h3 : ∀ i, i < 6 → (size * size * 4).toNat ≤ (inFaces.getD i []).length ∧
      (size * size * 4).toNat ≤ (outFaces.getD i []).length)
    (h5 : kernel.length % 2 = 1)
    (h6 : 0 < kernelScale)
    (h7 : ((kernel.length / 2 : ℕ) : ℝ) * kernelScale * 1.8 < (size : ℝ))
    (h8 : size ≤ 32768) :
    (CoreInstance.ltasg passFn inFaces outFaces size ImageFormat.RgbaF32PremulAlpha
        kernel kernelScale 0).2 = none ∧
    ∀ i, i < 6 →
      ((CoreInstance.ltasg passFn inFaces outFaces size ImageFormat.RgbaF32PremulAlpha
          kernel kernelScale 0).1.getD i []).take (size * size * 4).toNat =
        (inFaces.getD i []).take (size * size * 4).toNat := by
  have herr : ltasgError inFaces outFaces size ImageFormat.RgbaF32PremulAlpha kernel
      kernelScale 0 = none := by
    by_contra hne
    have hD := (ltasgError_ne_none_iff inFaces outFaces size _ kernel kernelScale 0
      le_rfl).mp hne
    rcases hD with h' | h' | h' | h' | h' | h' | h' | h'
    · omega
    · omega
    · obtain ⟨i, hi, hc⟩ := h'
      have := h3 i hi
      omega
    · exact h' rfl
    · omega
    · exact h' h6
    · exact absurd h7 (not_lt.2 h')
    · omega
  simp only [CoreInstance.ltasg, herr]
  exact ⟨trivial, fun i hi => ltasgRun_zero passFn inFaces outFaces size kernel kernelScale
    i hi (h3 i hi).1⟩

/-- Witness for C10: `size = 1`, six 4-float faces, one-tap kernel; the first
four floats of output face 0 equal input face 0. -/
theorem ltasg_zero_passes_witness :
    (CoreInstance.ltasg (fun _ _ _ _ fs => fs)
        [[1, 2, 3, 4], [0, 0, 0, 0], [0, 0, 0, 0], [0, 0, 0, 0], [0, 0, 0, 0], [0, 0, 0, 0]]
        [[9, 9, 9, 9], [9, 9, 9, 9], [9, 9, 9, 9], [9, 9, 9, 9], [9, 9, 9, 9], [9, 9, 9, 9]]
        1 ImageFormat.RgbaF32PremulAlpha [1] 1 0).2 = none ∧
      ((CoreInstance.ltasg (fun _ _ _ _ fs => fs)
        [[1, 2, 3, 4], [0, 0, 0, 0], [0, 0, 0, 0], [0, 0, 0, 0], [0, 0, 0, 0], [0, 0, 0, 0]]
        [[9, 9, 9, 9], [9, 9, 9, 9], [9, 9, 9, 9], [9, 9, 9, 9], [9, 9, 9, 9], [9, 9, 9, 9]]
        1 ImageFormat.RgbaF32PremulAlpha [1] 1 0).1.getD 0 []).take
          ((1 : ℤ) * 1 * 4).toNat =
        (([[1, 2, 3, 4], [0, 0, 0, 0], [0, 0, 0, 0], [0, 0, 0, 0], [0, 0, 0, 0],
          [0, 0, 0, 0]] : List Face).getD 0 []).take ((1 : ℤ) * 1 * 4).toNat := by
  have h := ltasg_zero_passes (fun _ _ _ _ fs => fs)
    [[1, 2, 3, 4], [0, 0, 0, 0], [0, 0, 0, 0], [0, 0, 0, 0], [0, 0, 0, 0], [0, 0, 0, 0]]
    [[9, 9, 9, 9], [9, 9, 9, 9], [9, 9, 9, 9], [9, 9, 9, 9], [9, 9, 9, 9], [9, 9, 9, 9]]
    1 [1] 1 (by norm_num) (by norm_num)
    (by intro i hi; interval_cases i <;> constructor <;> simp)
    (by norm_num) (by norm_num) (by norm_num) (by norm_num)
  exact ⟨h.1, h.2 0 (by norm_num)⟩

/-! ### Shape facts for the pipeline driver -/

/-- Galois characterisation of the rounding-up division `(n + m - 1) / m`. -/
theorem ceilDiv_le_iff (n m k : ℕ) (hm : 0 < m) :
    (n + m - 1) / m ≤ k ↔ n ≤ m * k := by
  rw [Nat.div_le_iff_le_mul_add_pred hm]
  omega

/-- Rounding-up halving composes: `⌈⌈n/a⌉/b⌉ = ⌈n/(a·b)⌉`. -/
theorem ceilDiv_ceilDiv (n a b : ℕ) (ha : 0 < a) (hb : 0 < b) :
    ((n + a - 1) / a + b - 1) / b = (n + a * b - 1) / (a * b) := by
  have hab : 0 < a * b := Nat.mul_pos ha hb
  have hx : ∀ k, ((n + a - 1) / a + b - 1) / b ≤ k ↔ n ≤ a * (b * k) := by
    intro k
    rw [ceilDiv_le_iff _ _ _ hb, ceilDiv_le_iff _ _ _ ha]
  have hy : ∀ k, (n + a * b - 1) / (a * b) ≤ k ↔ n ≤ a * b * k := by
    intro k
    rw [ceilDiv_le_iff _ _ _ hab]
  apply le_antisymm
  · rw [hx]
    have := (hy _).1 le_rfl
    linarith [this, (mul_assoc a b ((n + a * b - 1) / (a * b))).symm]
  · rw [hy]
    have := (hx _).1 le_rfl
    linarith [this, mul_assoc a b (((n + a - 1) / a + b - 1) / b)]

/-- The iterated `(s + 1) >> 1` size recurrence equals the closed form
`⌈N / 2^l⌉` computed by the constructor, for non-negative sizes. -/
theorem sizeAt_eq_levelSize (N : ℤ) (hN : 0 ≤ N) (l : ℕ) :
    sizeAt N l = levelSize N l := by
  induction l generalizing N with
  | zero =>
    obtain ⟨n, rfl⟩ := Int.eq_ofNat_of_zero_le hN
    simp [sizeAt, levelSize]
  | succ l ih =>
    obtain ⟨n, rfl⟩ := Int.eq_ofNat_of_zero_le hN
    have h2 : ((n : ℤ) + 1) / 2 = ((n + 1) / 2 : ℕ) := by
      norm_cast
    have hcast : ∀ (m j : ℕ), ((m : ℤ) + 2 ^ j - 1) / 2 ^ j = ((m + 2 ^ j - 1) / 2 ^ j : ℕ) := by
      intro m j
      have h1 : (1 : ℕ) ≤ m + 2 ^ j := by
        have := Nat.two_pow_pos j
        omega
      have hnum : ((m : ℤ) + 2 ^ j - 1) = ((m + 2 ^ j - 1 : ℕ) : ℤ) := by
        push_cast [h1]
        ring
      have hden : ((2 : ℤ)) ^ j = ((2 ^ j : ℕ) : ℤ) := by
        push_cast
        ring
      rw [hnum, hden, ← Int.ofNat_ediv]
    rw [sizeAt, h2, ih _ (by positivity)]
    unfold levelSize
    rw [hcast, hcast]
    norm_cast
    rw [show n + 1 = n + 2 - 1 from by omega,
      ceilDiv_ceilDiv n 2 (2 ^ l) (by norm_num) (Nat.two_pow_pos l),
      show 2 * 2 ^ l = 2 ^ (l + 1) from by rw [pow_succ]; ring]

/-- The output-format conversion preserves the face length. -/
theorem coerceTo_length (image : Face) (format : ImageFormat) :
    (coerceRgbaF32PremulAlphaTo image format).length = image.length := by
  cases format <;> simp [coerceRgbaF32PremulAlphaTo]

/-- A successful resample has exactly `outWidth·outHeight·4` floats. -/
theorem resampleRgbF32_ok_length (inImage : Face) (inW inH outW outH : ℤ)
    (f : Face) (h : resampleRgbF32 inImage inW inH outW outH = .ok f) :
    f.length = (outW * outH * 4).toNat := by
  unfold resampleRgbF32 at h
  by_cases h1 : inW < outW ∨ inH < outH
  · rw [if_pos h1] at h; exact absurd h (by simp)
  rw [if_neg h1] at h
  by_cases h2 : inW = outW * 2 ∧ inH = outH * 2
  · rw [if_pos h2] at h
    simp only [Except.ok.injEq] at h
    subst h
    simp
  · rw [if_neg h2] at h
    simp only [Except.ok.injEq] at h
    subst h
    simp

/-- A successful `resampleAll` has one output per input, each of exactly
`newSize²·4` floats. -/
theorem resampleAll_ok (curSize newSize : ℤ) :
    ∀ (fs fs' : List Face), resampleAll curSize newSize fs = .ok fs' →
      fs'.length = fs.length ∧
      ∀ i, i < fs.length →
        (fs'.getD i []).length = (newSize * newSize * 4).toNat := by
  intro fs
  induction fs with
  | nil =>
    intro fs' h
    simp [resampleAll] at h
    subst h
    simp
  | cons f rest ih =>
    intro fs' h
    unfold resampleAll at h
    cases hr : resampleRgbF32 f curSize curSize newSize newSize with
    | error e => rw [hr] at h; exact absurd h (by simp)
    | ok f' =>
      rw [hr] at h
      cases hrest : resampleAll curSize newSize rest with
      | error e => rw [hrest] at h; exact absurd h (by simp)
      | ok rest' =>
        rw [hrest] at h
        simp only [Except.ok.injEq] at h
        subst h
        obtain ⟨hlen, hget⟩ := ih rest' hrest
        refine ⟨by simp [hlen], ?_⟩
        intro i hi
        cases i with
        | zero =>
          simpa using resampleRgbF32_ok_length f curSize curSize newSize newSize f' hr
        | succ i' =>
          simp only [List.getD_cons_succ]
          exact hget i' (by simpa using hi)

/-- `getD` through `map`, within bounds. -/
theorem getD_map (g : Face -> Face) (l : List Face) (i : ℕ) (hi : i < l.length) :
    (l.map g).getD i [] = g (l.getD i []) := by
  rw [List.getD_eq_getElem?_getD, List.getElem?_map, List.getD_eq_getElem?_getD,
    List.getElem?_eq_getElem hi]
  rfl

/-- A successful `ltasg` call: the prologue passed and the result is the
write phase. -/
theorem ltasg_ok_imp (passFn : PassFn) (inF outF : List Face) (size : ℤ)
    (fmt : ImageFormat) (k : List ℝ) (s : ℝ) (np : ℤ)
    (h : (CoreInstance.ltasg passFn inF outF size fmt k s np).2 = none) :
    ltasgError inF outF size fmt k s np = none ∧
    (CoreInstance.ltasg passFn inF outF size fmt k s np).1 =
      ltasgRun passFn inF outF size k s np := by
  unfold CoreInstance.ltasg at h ⊢
  cases herr : ltasgError inF outF size fmt k s np with
  | some e => rw [herr] at h; simp at h
  | none => exact ⟨rfl, rfl⟩

/-- When the prologue passes, all validation conditions hold. -/
theorem ltasgError_eq_none_imp (inF outF : List Face) (size : ℤ)
    (fmt : ImageFormat) (k : List ℝ) (s : ℝ) (np : ℤ)
    (h : ltasgError inF outF size fmt k s np = none) :
    6 ≤ inF.length ∧ 6 ≤ outF.length ∧
    (∀ i, i < 6 → (size * size * 4).toNat ≤ (inF.getD i []).length ∧
      (size * size * 4).toNat ≤ (outF.getD i []).length) ∧
    fmt = ImageFormat.RgbaF32PremulAlpha ∧ k.length % 2 = 1 ∧ 0 < s ∧
    ((k.length / 2 : ℕ) : ℝ) * s * 1.8 < (size : ℝ) ∧ size ≤ 32768 ∧ 0 ≤ np := by
  unfold ltasgError at h
  split_ifs at h with h1 h2 h3 h4 h5 h6 h7 h8 h9
  push_neg at h3
  refine ⟨by omega, by omega, ?_, not_not.1 h4, by omega, h6, h7, by omega, by omega⟩
  intro i hi
  have := h3 i hi
  omega

/-- The write phase returns as many faces as `outFaces` has. -/
theorem ltasgRun_length (passFn : PassFn) (inF outF : List Face) (size : ℤ)
    (k : List ℝ) (s : ℝ) (np : ℤ) (hout : 6 ≤ outF.length) :
    (ltasgRun passFn inF outF size k s np).length = outF.length := by
  unfold ltasgRun
  simp only [List.length_append, List.length_map, List.length_range, List.length_drop]
  omega

/-- The write phase preserves each of the six face lengths. -/
theorem ltasgRun_getD_length (passFn : PassFn) (inF outF : List Face) (size : ℤ)
    (k : List ℝ) (s : ℝ) (np : ℤ) (i : ℕ) (hi : i < 6)
    (hlen : (size * size * 4).toNat ≤ (outF.getD i []).length) :
    ((ltasgRun passFn inF outF size k s np).getD i []).length =
      (outF.getD i []).length := by
  unfold ltasgRun
  rw [getD_append_left _ _ i [] (by simp [hi]), getD_range_map _ 6 i [] hi]
  simp only [List.length_append, padTake_length, List.length_drop]
  omega

/-- `coerceFace` succeeds exactly by handing back the caller's array, long
enough, in the float format. -/
theorem coerceFace_ok (N2 : ℕ) (inFormat : ImageFormat) (im f : Face)
    (h : coerceFace N2 inFormat im = .ok f) :
    f = im ∧ N2 ≤ f.length ∧ inFormat = ImageFormat.RgbaF32PremulAlpha := by
  cases inFormat with
  | RgbaF32PremulAlpha =>
    unfold coerceFace coerceToRgbaF32PremulAlphaFrom at h
    simp only [] at h
    by_cases hlen : im.length < N2
    · rw [if_pos hlen] at h; exact absurd h (by simp)
    · rw [if_neg hlen] at h
      simp only [Except.ok.injEq] at h
      subst h
      exact ⟨rfl, by omega, rfl⟩
  | Srgbx8 => exact absurd h (by simp [coerceFace, coerceToRgbaF32PremulAlphaFrom])
  | Srgba8StraightAlpha =>
    exact absurd h (by simp [coerceFace, coerceToRgbaF32PremulAlphaFrom])

/-- A successful base-level coercion hands back the selected input faces,
each at least `N2` long. -/
theorem baseLevelAux_ok (N2 : ℕ) (inFormat : ImageFormat) (input : List Face) :
    ∀ (idxs : List ℕ) (fs : List Face),
      baseLevelAux N2 inFormat input idxs = .ok fs →
      fs.length = idxs.length ∧
      ∀ j, j < idxs.length → fs.getD j [] = input.getD (idxs.getD j 0) [] ∧
        N2 ≤ (fs.getD j []).length := by
  intro idxs
  induction idxs with
  | nil =>
    intro fs h
    simp [baseLevelAux] at h
    subst h
    simp
  | cons i rest ih =>
    intro fs h
    unfold baseLevelAux at h
    cases hc : coerceFace N2 inFormat (input.getD i []) with
    | error e => rw [hc] at h; exact absurd h (by simp)
    | ok f =>
      rw [hc] at h
      cases hr : baseLevelAux N2 inFormat input rest with
      | error e => rw [hr] at h; exact absurd h (by simp)
      | ok fs' =>
        rw [hr] at h
        simp only [Except.ok.injEq] at h
        subst h
        obtain ⟨hf, hlen, -⟩ := coerceFace_ok N2 inFormat _ f hc
        obtain ⟨hlen', hget⟩ := ih fs' hr
        refine ⟨by simp [hlen'], ?_⟩
        intro j hj
        cases j with
        | zero =>
          simp only [List.getD_cons_zero]
          exact ⟨hf, hlen⟩
        | succ j' =>
          simp only [List.getD_cons_succ]
          exact hget j' (by simpa using hj)

/-- Shape of all levels produced with resampling on (every level past the
first): level `l` holds six faces of exactly `sizeAt s (l+1)²·4` floats. -/
theorem processLevels_shape_true (passFn : PassFn) (outFormat : ImageFormat) :
    ∀ (plan : List PlanEntry) (cur : List Face) (s : ℤ) (levels : List (List Face)),
      processLevels passFn outFormat true cur s plan = .ok levels →
      cur.length = 6 →
      levels.length = plan.length ∧
      ∀ l, l < plan.length → (levels.getD l []).length = 6 ∧
        ∀ j, j < 6 → ((levels.getD l []).getD j []).length =
          (sizeAt s (l + 1) * sizeAt s (l + 1) * 4).toNat := by
  intro plan
  induction plan with
  | nil =>
    intro cur s levels h hcur
    simp only [processLevels, Except.ok.injEq] at h
    subst h
    simp
  | cons entry rest ih =>
    intro cur s levels h hcur
    unfold processLevels at h
    simp only [if_true, ite_true, ne_eq] at h
    split at h
    · exact absurd h (by simp)
    rename_i cur2 hre
    split at h
    · exact absurd h (by simp)
    rename_i blurred hc
    split at h
    · exact absurd h (by simp)
    rename_i tail hrest
    simp only [Except.ok.injEq] at h
    subst h
    obtain ⟨hlen2, hget2⟩ := resampleAll_ok s ((s + 1) / 2) cur cur2 hre
    have hcur2 : cur2.length = 6 := by omega
    have hsnd : (CoreInstance.ltasg passFn cur2 cur2 ((s + 1) / 2)
        ImageFormat.RgbaF32PremulAlpha entry.kernel entry.kernelScale
        entry.numPasses).2 = none := by rw [hc]
    obtain ⟨herr, hfst⟩ := ltasg_ok_imp passFn cur2 cur2 ((s + 1) / 2)
      ImageFormat.RgbaF32PremulAlpha entry.kernel entry.kernelScale
      entry.numPasses hsnd
    obtain ⟨-, -, hfaces, -, -, -, -, -, -⟩ :=
      ltasgError_eq_none_imp cur2 cur2 ((s + 1) / 2)
        ImageFormat.RgbaF32PremulAlpha entry.kernel entry.kernelScale
        entry.numPasses herr
    have hblurred : blurred = ltasgRun passFn cur2 cur2 ((s + 1) / 2)
        entry.kernel entry.kernelScale entry.numPasses := by
      rw [← hfst, hc]
    have hblen : blurred.length = 6 := by
      rw [hblurred, ltasgRun_length _ _ _ _ _ _ _ (by omega)]
      exact hcur2
    have hbface : ∀ j, j < 6 → (blurred.getD j []).length =
        (((s + 1) / 2) * ((s + 1) / 2) * 4).toNat := by
      intro j hj
      rw [hblurred, ltasgRun_getD_length _ _ _ _ _ _ _ j hj (hfaces j hj).2]
      exact hget2 j (by omega)
    obtain ⟨htlen, htail⟩ := ih blurred ((s + 1) / 2) tail hrest hblen
    have hlevel0 : ((if ¬ outFormat = ImageFormat.RgbaF32PremulAlpha then
        blurred.map (fun im => coerceRgbaF32PremulAlphaTo im outFormat)
      else blurred) : List Face).length = 6 := by
      by_cases ho : outFormat = ImageFormat.RgbaF32PremulAlpha
      · simp [ho, hblen]
      · simp [ho, hblen]
    have hlevel0f : ∀ j, j < 6 →
        (((if ¬ outFormat = ImageFormat.RgbaF32PremulAlpha then
            blurred.map (fun im => coerceRgbaF32PremulAlphaTo im outFormat)
          else blurred) : List Face).getD j []).length =
        (((s + 1) / 2) * ((s + 1) / 2) * 4).toNat := by
      intro j hj
      by_cases ho : outFormat = ImageFormat.RgbaF32PremulAlpha
      · simp only [ho, not_true_eq_false, ite_false]
        exact hbface j hj
      · simp only [ho, not_false_eq_true, ite_true]
        rw [getD_map _ _ j (by omega), coerceTo_length]
        exact hbface j hj
    refine ⟨by simp [htlen], ?_⟩
    intro l hl
    cases l with
    | zero =>
      refine ⟨by simpa using hlevel0, ?_⟩
      intro j hj
      simpa using hlevel0f j hj
    | succ l' =>
      have hl' : l' < rest.length := by simpa using hl
      obtain ⟨h6, hlenf⟩ := htail l' hl'
      refine ⟨by simpa using h6, ?_⟩
      intro j hj
      have := hlenf j hj
      simpa [sizeAt] using this

/-- Shape of the levels produced by the full loop (`doResample = false` on
the first entry): level 0 keeps the incoming face lengths, level `l ≥ 1`
holds six faces of exactly `sizeAt s l²·4` floats. -/
theorem processLevels_shape_false (passFn : PassFn) (outFormat : ImageFormat)
    (plan : List PlanEntry) (cur : List Face) (s : ℤ) (levels : List (List Face))
    (h : processLevels passFn outFormat false cur s plan = .ok levels)
    (hcur : cur.length = 6) :
    levels.length = plan.length ∧
    (∀ l, l < plan.length → (levels.getD l []).length = 6) ∧
    (∀ l, 1 ≤ l → l < plan.length → ∀ j, j < 6 →
      ((levels.getD l []).getD j []).length = (sizeAt s l * sizeAt s l * 4).toNat) ∧
    (0 < plan.length → ∀ j, j < 6 →
      ((levels.getD 0 []).getD j []).length = (cur.getD j []).length) := by
  cases plan with
  | nil =>
    simp only [processLevels, Except.ok.injEq] at h
    subst h
    simp
  | cons entry rest =>
    unfold processLevels at h
    simp only [Bool.false_eq_true, if_false, ite_false, ne_eq] at h
    split at h
    · exact absurd h (by simp)
    rename_i blurred hc
    split at h
    · exact absurd h (by simp)
    rename_i tail hrest
    simp only [Except.ok.injEq] at h
    subst h
    have hsnd : (CoreInstance.ltasg passFn cur cur s
        ImageFormat.RgbaF32PremulAlpha entry.kernel entry.kernelScale
        entry.numPasses).2 = none := by rw [hc]
    obtain ⟨herr, hfst⟩ := ltasg_ok_imp passFn cur cur s
      ImageFormat.RgbaF32PremulAlpha entry.kernel entry.kernelScale
      entry.numPasses hsnd
    obtain ⟨-, -, hfaces, -, -, -, -, -, -⟩ :=
      ltasgError_eq_none_imp cur cur s ImageFormat.RgbaF32PremulAlpha entry.kernel
        entry.kernelScale entry.numPasses herr
    have hblurred : blurred = ltasgRun passFn cur cur s
        entry.kernel entry.kernelScale entry.numPasses := by
      rw [← hfst, hc]
    have hblen : blurred.length = 6 := by
      rw [hblurred, ltasgRun_length _ _ _ _ _ _ _ (by omega)]
      exact hcur
    have hbface : ∀ j, j < 6 → (blurred.getD j []).length = (cur.getD j []).length := by
      intro j hj
      rw [hblurred, ltasgRun_getD_length _ _ _ _ _ _ _ j hj (hfaces j hj).2]
    obtain ⟨htlen, htail⟩ := processLevels_shape_true passFn outFormat rest blurred s
      tail hrest hblen
    have hlevel0 : ((if ¬ outFormat = ImageFormat.RgbaF32PremulAlpha then
        blurred.map (fun im => coerceRgbaF32PremulAlphaTo im outFormat)
      else blurred) : List Face).length = 6 := by
      by_cases ho : outFormat = ImageFormat.RgbaF32PremulAlpha
      · simp [ho, hblen]
      · simp [ho, hblen]
    have hlevel0f : ∀ j, j < 6 →
        (((if ¬ outFormat = ImageFormat.RgbaF32PremulAlpha then
            blurred.map (fun im => coerceRgbaF32PremulAlphaTo im outFormat)
          else blurred) : List Face).getD j []).length = (cur.getD j []).length := by
      intro j hj
      by_cases ho : outFormat = ImageFormat.RgbaF32PremulAlpha
      · simp only [ho, not_true_eq_false, ite_false]
        exact hbface j hj
      · simp only [ho, not_false_eq_true, ite_true]
        rw [getD_map _ _ j (by omega), coerceTo_length]
        exact hbface j hj
    refine ⟨by simp [htlen], ?_, ?_, ?_⟩
    · intro l hl
      cases l with
      | zero => simpa using hlevel0
      | succ l' =>
        have hl' : l' < rest.length := by simpa using hl
        simpa using (htail l' hl').1
    · intro l h1 hl j hj
      cases l with
      | zero => omega
      | succ l' =>
        have hl' : l' < rest.length := by simpa using hl
        simpa using (htail l' hl').2 j hj
    · intro hpos j hj
      simpa using hlevel0f j hj

/-- A plan that builds has one entry per sigma. -/
theorem buildPlanAux_ok_length (N m : ℤ) (kw kr : ℝ) :
    ∀ (sigmas : List ℝ) (i : ℕ) (v : ℝ) (plan : List PlanEntry),
      buildPlanAux N m kw kr i v sigmas = .ok plan → plan.length = sigmas.length := by
  intro sigmas
  induction sigmas with
  | nil =>
    intro i v plan h
    simp [buildPlanAux] at h
    subst h
    rfl
  | cons sigma rest ih =>
    intro i v plan h
    simp only [buildPlanAux] at h
    split at h
    · exact absurd h (by simp)
    split at h
    · exact absurd h (by simp)
    rename_i tail htail
    simp only [Except.ok.injEq] at h
    subst h
    simp [ih _ _ _ htail]

theorem getD_range (n j : ℕ) (h : j < n) : (List.range n).getD j 0 = j := by
  rw [List.getD_eq_getElem?_getD, List.getElem?_range h]
  rfl

/-- C5 amended: a successful `process` call returns one level per entry of
`mipLevelSigmas`, each an ordered list of exactly six faces; every level
`l ≥ 1` face holds exactly `4·N_l²` samples with `N_l = ⌈N/2^l⌉`, while a
level-0 face keeps the caller's backing-array length, which is at least
`4·N²` (exactly `4·N²` only when the caller's arrays are exactly that
long). -/
theorem process_shape (passFn : PassFn) (o : LtasgOptions) (plan : List PlanEntry)
    (input : List Face) (inFormat outFormat : ImageFormat) (levels : List (List Face))
    (hplan : buildPlan o = .ok plan)
    (hN : 0 ≤ o.imageSize)
    (hok : LtasgBlur.process passFn ⟨o.imageSize, plan⟩ input inFormat outFormat =
      .ok levels) :
    levels.length = o.mipLevelSigmas.length ∧
    (∀ l, l < levels.length → (levels.getD l []).length = 6) ∧
    (∀ l, 1 ≤ l → l < levels.length → ∀ j, j < 6 →
      ((levels.getD l []).getD j []).length =
        (levelSize o.imageSize l * levelSize o.imageSize l * 4).toNat) ∧
    (0 < levels.length → ∀ j, j < 6 →
      ((levels.getD 0 []).getD j []).length = (input.getD j []).length ∧
      (o.imageSize * o.imageSize * 4).toNat ≤ (input.getD j []).length) := by
  have hplanlen : plan.length = o.mipLevelSigmas.length :=
    buildPlanAux_ok_length o.imageSize (effMinNumPasses o) (effKernelWidth o)
      (effKernelResolution o) o.mipLevelSigmas 0 0 plan hplan
  unfold LtasgBlur.process at hok
  by_cases hin : input.length < 6
  · rw [if_pos hin] at hok; exact absurd hok (by simp)
  rw [if_neg hin] at hok
  split at hok
  · exact absurd hok (by simp)
  rename_i base hb
  unfold baseLevel at hb
  obtain ⟨hblen, hbget⟩ := baseLevelAux_ok _ inFormat input (List.range 6) base hb
  have hblen6 : base.length = 6 := by simpa using hblen
  have hbase : ∀ j, j < 6 → base.getD j [] = input.getD j [] ∧
      (o.imageSize * o.imageSize * 4).toNat ≤ (base.getD j []).length := by
    intro j hj
    obtain ⟨heq, hlen⟩ := hbget j (by simpa using hj)
    rw [getD_range 6 j hj] at heq
    exact ⟨heq, hlen⟩
  obtain ⟨hlev, hcount, hsizes, hlev0⟩ :=
    processLevels_shape_false passFn outFormat plan base o.imageSize levels hok hblen6
  refine ⟨by omega, ?_, ?_, ?_⟩
  · intro l hl
    exact hcount l (by omega)
  · intro l h1 hl j hj
    rw [hsizes l h1 (by omega) j hj, sizeAt_eq_levelSize o.imageSize hN l]
  · intro hpos j hj
    obtain ⟨heq, hlen⟩ := hbase j hj
    rw [hlev0 (by omega) j hj, heq]
    exact ⟨rfl, heq ▸ hlen⟩

/-! ### Concrete evaluation of the pipeline -/

theorem generateGaussianKernel_zero : generateGaussianKernel 0 0 = [1] := by
  have hw : gaussianWeights 0 0 = [1] := by
    unfold gaussianWeights
    rw [show 2 * 0 + 1 = 1 from rfl, show List.range 1 = [0] from by decide]
    norm_num [Real.exp_zero]
  unfold generateGaussianKernel
  rw [hw]
  norm_num

/-- The plan entry for a zero residue: one-tap kernel, scale `1/2`, two
passes (`minNumPasses`). -/
theorem mkPlanEntry_zero_residue : mkPlanEntry 1 2 3 2 0 = ⟨[1], 1 / 2, 2⟩ := by
  simp only [mkPlanEntry]
  have h0 : ((0 : ℝ) / (0.5 / 3 * (0.5 / 3))) = 0 := by norm_num
  have hmax : max ⌈(0 : ℝ) / (0.5 / 3 * (0.5 / 3))⌉ (2 : ℤ) = 2 := by
    rw [h0]
    norm_num
  rw [hmax]
  have hsig : Real.sqrt ((0 : ℝ) / ((2 : ℤ) : ℝ)) * ((1 : ℤ) : ℝ) = 0 := by
    norm_num [Real.sqrt_zero]
  rw [hsig]
  have hflr : (⌊(0 : ℝ) * 2 * 3⌋ : ℤ) = 0 := by norm_num
  rw [hflr]
  have hker : generateGaussianKernel ((0 : ℤ)).toNat ((0 : ℝ) * 2) = [1] := by
    norm_num [generateGaussianKernel_zero]
  rw [hker]

theorem ltasgError_concrete :
    ltasgError inputC inputC 1 ImageFormat.RgbaF32PremulAlpha [1] (1 / 2) 2 = none := by
  have h := ltasgError_ne_none_iff inputC inputC 1 ImageFormat.RgbaF32PremulAlpha
    [1] (1 / 2) 2 (by norm_num)
  refine not_ne_iff.mp ?_
  rw [h]
  rintro (h' | h' | h' | h' | h' | h' | h' | h')
  · simp [inputC] at h'
  · simp [inputC] at h'
  · obtain ⟨i, hi, hc⟩ := h'
    interval_cases i <;> simp_all [inputC, face8C]
  · exact h' rfl
  · simp at h'
  · exact h' (by norm_num)
  · norm_num at h'
  · norm_num at h'

theorem ltasgRun_concrete :
    ltasgRun passIdC inputC inputC 1 [1] (1 / 2) 2 = inputC := by
  simp only [ltasgRun, passIdC]
  have he : ((1 : ℤ) * 1 * 4).toNat = 4 := by decide
  rw [he]
  have hrange : List.range 6 = [0, 1, 2, 3, 4, 5] := by decide
  have hface : padTake face8C 4 = [0, 0, 0, 0] := by
    simp [padTake, face8C]
  have hupload : (List.range 6).map (fun i => padTake (inputC.getD i []) 4) =
      [[0, 0, 0, 0], [0, 0, 0, 0], [0, 0, 0, 0], [0, 0, 0, 0], [0, 0, 0, 0],
        [0, 0, 0, 0]] := by
    rw [hrange]
    simp only [List.map_cons, List.map_nil, inputC, List.getD_cons_zero,
      List.getD_cons_succ]
    rw [hface]
  have hnorm : normalizeFaces 4 [[0, 0, 0, 0], [0, 0, 0, 0], [0, 0, 0, 0], [0, 0, 0, 0],
      [0, 0, 0, 0], [0, 0, 0, 0]] = [[0, 0, 0, 0], [0, 0, 0, 0], [0, 0, 0, 0],
      [0, 0, 0, 0], [0, 0, 0, 0], [0, 0, 0, 0]] := by
    unfold normalizeFaces
    rw [hrange]
    simp only [List.map_cons, List.map_nil, List.getD_cons_zero, List.getD_cons_succ]
    norm_num [padTake]
  rw [hupload]
  have hfix : ∀ n : ℕ, (fun fs => normalizeFaces 4 (normalizeFaces 4 (normalizeFaces 4
      fs)))^[n] [[0, 0, 0, 0], [0, 0, 0, 0], [0, 0, 0, 0], [0, 0, 0, 0], [0, 0, 0, 0],
      [0, 0, 0, 0]] = [[0, 0, 0, 0], [0, 0, 0, 0], [0, 0, 0, 0], [0, 0, 0, 0],
      [0, 0, 0, 0], [0, 0, 0, 0]] := by
    intro n
    apply Function.iterate_fixed
    rw [hnorm, hnorm, hnorm]
  rw [hfix]
  rw [hrange]
  simp only [List.map_cons, List.map_nil, inputC, List.getD_cons_zero,
    List.getD_cons_succ, List.drop_nil]
  norm_num [padTake, face8C]

theorem ltasg_concrete :
    CoreInstance.ltasg passIdC inputC inputC 1 ImageFormat.RgbaF32PremulAlpha [1]
      (1 / 2) 2 = (inputC, none) := by
  unfold CoreInstance.ltasg
  rw [ltasgError_concrete, ltasgRun_concrete]

theorem baseLevel_concrete :
    baseLevel 1 ImageFormat.RgbaF32PremulAlpha inputC = .ok inputC := by
  unfold baseLevel baseLevelAux
  have hrange : List.range 6 = [0, 1, 2, 3, 4, 5] := by decide
  rw [hrange]
  have hface : coerceFace ((1 : ℤ) * 1 * 4).toNat ImageFormat.RgbaF32PremulAlpha
      face8C = .ok face8C := by
    unfold coerceFace coerceToRgbaF32PremulAlphaFrom
    have : ¬ (face8C.length < ((1 : ℤ) * 1 * 4).toNat) := by
      simp [face8C]
    simp only [this, if_false, ite_false]
  simp only [inputC, List.getD_cons_zero, List.getD_cons_succ, baseLevelAux, hface]

theorem process_concrete :
    LtasgBlur.process passIdC ⟨1, [mkPlanEntry 1 2 3 2 0]⟩ inputC
      ImageFormat.RgbaF32PremulAlpha ImageFormat.RgbaF32PremulAlpha =
      .ok [inputC] := by
  unfold LtasgBlur.process
  rw [if_neg (by simp [inputC])]
  rw [baseLevel_concrete]
  show processLevels passIdC ImageFormat.RgbaF32PremulAlpha false inputC 1
    [mkPlanEntry 1 2 3 2 0] = .ok [inputC]
  unfold processLevels
  simp only [Bool.false_eq_true, if_false, ite_false, ne_eq, mkPlanEntry_zero_residue]
  rw [ltasg_concrete]
  simp only [processLevels, not_true_eq_false, ite_false]

/-- The plan for `imageSize = 1`, `mipLevelSigmas = [0]`. -/
theorem buildPlan_concrete :
    buildPlan ⟨1, [0], 2, 2, 3⟩ = .ok [mkPlanEntry 1 2 3 2 0] := by
  have hchain : List.Chain (· ≤ ·) (0 : ℝ) [0] := List.Chain.cons le_rfl List.Chain.nil
  have h := buildPlanAux_eq_planSpec 1 2 3 2 [0] 0 0 le_rfl hchain
  rw [show (0 : ℝ) * 0 = 0 from by ring] at h
  have hbp : buildPlan ⟨1, [0], 2, 2, 3⟩ = .ok (planSpec 1 2 3 2 0 0 [0]) := by
    have he1 : effMinNumPasses ⟨1, [0], 2, 2, 3⟩ = 2 := by simp [effMinNumPasses]
    have he2 : effKernelWidth ⟨1, [0], 2, 2, 3⟩ = 3 := by simp [effKernelWidth]
    have he3 : effKernelResolution ⟨1, [0], 2, 2, 3⟩ = 2 := by simp [effKernelResolution]
    simp only [buildPlan, he1, he2, he3]
    exact h
  rw [hbp]
  have hsz : levelSize 1 0 = 1 := by decide
  simp only [planSpec, hsz]
  norm_num

/-- C5 counterexample: on a successful `process` call with `imageSize = 1`
and six 8-float input faces, the level-0 faces hold 8 samples, not
`4·N₀² = 4`: the claim "each face holding `4·N_l²` samples" fails at level
0, whose faces keep the caller's backing-array length. -/
theorem process_level0_size_cex :
    buildPlan ⟨1, [0], 2, 2, 3⟩ = .ok [mkPlanEntry 1 2 3 2 0] ∧
    LtasgBlur.process passIdC ⟨1, [mkPlanEntry 1 2 3 2 0]⟩ inputC
      ImageFormat.RgbaF32PremulAlpha ImageFormat.RgbaF32PremulAlpha = .ok [inputC] ∧
    ((([inputC] : List (List Face)).getD 0 []).getD 0 []).length = 8 ∧
    ¬ (((([inputC] : List (List Face)).getD 0 []).getD 0 []).length =
      (levelSize 1 0 * levelSize 1 0 * 4).toNat) := by
  refine ⟨buildPlan_concrete, process_concrete, by simp [inputC, face8C], ?_⟩
  have hsz : levelSize 1 0 = 1 := by decide
  simp [inputC, face8C, hsz]

/-- Witness for the amended C5 at `imageSize = 1`, `mipLevelSigmas = [0]`,
six 8-float input faces. -/
theorem process_shape_witness :
    (0 : ℤ) ≤ (1 : ℤ) ∧
    ∃ levels, LtasgBlur.process passIdC ⟨1, [mkPlanEntry 1 2 3 2 0]⟩ inputC
        ImageFormat.RgbaF32PremulAlpha ImageFormat.RgbaF32PremulAlpha = .ok levels ∧
      levels.length = 1 ∧ (levels.getD 0 []).length = 6 := by
  obtain ⟨hlen, hcount, -, -⟩ := process_shape passIdC ⟨1, [0], 2, 2, 3⟩
    [mkPlanEntry 1 2 3 2 0] inputC ImageFormat.RgbaF32PremulAlpha
    ImageFormat.RgbaF32PremulAlpha [inputC] buildPlan_concrete (by norm_num)
    process_concrete
  refine ⟨by norm_num, [inputC], process_concrete, by simpa using hlen, ?_⟩
  exact hcount 0 (by simp)

/-! ### The kernel-sum invariant and its failure at zero residue -/

/-- The plan for the repeated-sigma options `{N = 16, sigmas = [0.1, 0.1]}`:
level 1 has residue variance 0. -/
theorem buildPlan_repeated_sigma :
    buildPlan ⟨16, [0.1, 0.1], 2, 2, 3⟩ =
      .ok [mkPlanEntry 16 2 3 2 ((0.1 : ℝ) * 0.1 - 0 * 0),
           mkPlanEntry 8 2 3 2 ((0.1 : ℝ) * 0.1 - 0.1 * 0.1)] := by
  have hchain : List.Chain (· ≤ ·) (0 : ℝ) [0.1, 0.1] :=
    List.Chain.cons (by norm_num) (List.Chain.cons le_rfl List.Chain.nil)
  have h := buildPlanAux_eq_planSpec 16 2 3 2 [0.1, 0.1] 0 0 le_rfl hchain
  rw [show (0 : ℝ) * 0 = 0 from by ring] at h
  have hbp : buildPlan ⟨16, [0.1, 0.1], 2, 2, 3⟩ =
      .ok (planSpec 16 2 3 2 0 0 [0.1, 0.1]) := by
    have he1 : effMinNumPasses ⟨16, [0.1, 0.1], 2, 2, 3⟩ = 2 := by simp [effMinNumPasses]
    have he2 : effKernelWidth ⟨16, [0.1, 0.1], 2, 2, 3⟩ = 3 := by simp [effKernelWidth]
    have he3 : effKernelResolution ⟨16, [0.1, 0.1], 2, 2, 3⟩ = 2 := by
      simp [effKernelResolution]
    simp only [buildPlan, he1, he2, he3]
    exact h
  rw [hbp]
  have hsz0 : levelSize 16 0 = 16 := by decide
  have hsz1 : levelSize 16 1 = 8 := by decide
  simp only [planSpec, hsz0, hsz1]

/-- The zero-residue level hands the kernel builder radius 0 and σ = 0. -/
theorem mkPlanEntry_zero_residue_kernel :
    (mkPlanEntry 8 2 3 2 0).kernel = generateGaussianKernel 0 0 := by
  simp only [mkPlanEntry]
  have h0 : ((0 : ℝ) / (0.5 / 3 * (0.5 / 3))) = 0 := by norm_num
  have hmax : max ⌈(0 : ℝ) / (0.5 / 3 * (0.5 / 3))⌉ (2 : ℤ) = 2 := by
    rw [h0]
    norm_num
  rw [hmax]
  have hsig : Real.sqrt ((0 : ℝ) / ((2 : ℤ) : ℝ)) * ((8 : ℤ) : ℝ) = 0 := by
    norm_num [Real.sqrt_zero]
  rw [hsig]
  norm_num

/-- C8 (supporting theorem for the code bug): a repeated sigma yields a
level with residue variance 0, whose kernel is built with radius 0 and
σ = 0; under real (idealised) arithmetic that kernel is `[1]`, but under
JS double semantics `(0 − 0) / 0` is NaN, NaN propagates through
`Math.exp`, the sum and the normalisation, and the stored kernel is
`[NaN]` — whose sum is NaN, not within `1e-6` of 1. -/
theorem kernel_nan_on_zero_residue :
    buildPlan ⟨16, [0.1, 0.1], 2, 2, 3⟩ =
      .ok [mkPlanEntry 16 2 3 2 ((0.1 : ℝ) * 0.1 - 0 * 0),
           mkPlanEntry 8 2 3 2 ((0.1 : ℝ) * 0.1 - 0.1 * 0.1)] ∧
    ((0.1 : ℝ) * 0.1 - 0.1 * 0.1) = 0 ∧
    (mkPlanEntry 8 2 3 2 0).kernel = generateGaussianKernel 0 0 ∧
    generateGaussianKernelJS 0 (some 0) = [none] := by
  refine ⟨buildPlan_repeated_sigma, by norm_num, mkPlanEntry_zero_residue_kernel, ?_⟩
  unfold generateGaussianKernelJS
  rw [show 2 * 0 + 1 = 1 from rfl, show List.range 1 = [0] from by decide]
  have hdiv : jsDiv (jsSub (some ((0 : ℕ) : ℝ)) (some ((0 : ℕ) : ℝ))) (some 0) = none := by
    simp [jsSub, jsDiv]
  rw [List.map_cons, List.map_nil, hdiv]
  simp [jsMul, jsExp, jsAdd, jsDiv]

/-! ### Frame properties of the reference-level model -/

/-- Reads below a write at a different index are unchanged. -/
theorem Store.read_write_ne (st : Store) (w r : ℕ) (f : Face) (h : r ≠ w) :
    (st.write w f).read r = st.read r := by
  unfold Store.write Store.read
  rw [List.getD_eq_getElem?_getD, List.getD_eq_getElem?_getD,
    List.getElem?_set_ne (fun he => h he.symm)]

/-- Reads below the old length survive an append. -/
theorem Store.read_append (st : Store) (tail : List Face) (r : ℕ) (h : r < st.length) :
    Store.read (st ++ tail) r = st.read r := by
  unfold Store.read
  exact getD_append_left st tail r [] h

theorem allocAll_spec : ∀ (fs : List Face) (st : Store),
    (allocAll st fs).1 = st ++ fs ∧
    (allocAll st fs).2.length = fs.length ∧
    ∀ b ∈ (allocAll st fs).2, st.length ≤ b := by
  intro fs
  induction fs with
  | nil => intro st; simp [allocAll]
  | cons f rest ih =>
    intro st
    obtain ⟨h1, h2, h3⟩ := ih (st ++ [f])
    unfold allocAll
    refine ⟨by rw [h1]; simp, by simpa using h2, ?_⟩
    intro b hb
    simp only [List.mem_cons] at hb
    rcases hb with hb | hb
    · omega
    · have := h3 b hb
      simp only [List.length_append, List.length_singleton] at this
      omega

/-- The write-back loop preserves the heap size. -/
theorem foldl_write_length (newFaces : List Face) (refs : List ℕ) :
    ∀ (idxs : List ℕ) (st : Store),
      (idxs.foldl (fun s i => Store.write s (refs.getD i 0) (newFaces.getD i [])) st).length
        = st.length := by
  intro idxs
  induction idxs with
  | nil => intro st; rfl
  | cons i rest ih =>
    intro st
    simp only [List.foldl_cons]
    rw [ih]
    unfold Store.write
    exact List.length_set st _ _

/-- The write-back loop only touches the given references. -/
theorem foldl_write_read (newFaces : List Face) (refs : List ℕ) :
    ∀ (idxs : List ℕ) (st : Store) (r : ℕ),
      (∀ i ∈ idxs, r ≠ refs.getD i 0) →
      (idxs.foldl (fun s i => Store.write s (refs.getD i 0) (newFaces.getD i [])) st).read r
        = st.read r := by
  intro idxs
  induction idxs with
  | nil => intro st r _; rfl
  | cons i rest ih =>
    intro st r hne
    simp only [List.foldl_cons]
    rw [ih (Store.write st (refs.getD i 0) (newFaces.getD i [])) r
      (fun j hj => hne j (by simp [hj]))]
    exact Store.read_write_ne st _ r _ (hne i (by simp))

/-- `ltasgStore` preserves the heap below `N0` when every reference is at
or above `N0`, and never shrinks the heap. -/
theorem ltasgStore_frame (passFn : PassFn) (st : Store) (refs : List ℕ)
    (size : ℤ) (kernel : List ℝ) (kernelScale : ℝ) (numPasses : ℤ) (N0 : ℕ)
    (hlen : N0 ≤ st.length) (hrefs : ∀ i, i < 6 → N0 ≤ refs.getD i 0) :
    N0 ≤ (ltasgStore passFn st refs size kernel kernelScale numPasses).1.length ∧
    ∀ r, r < N0 →
      (ltasgStore passFn st refs size kernel kernelScale numPasses).1.read r =
        st.read r := by
  unfold ltasgStore
  split
  · exact ⟨hlen, fun r hr => rfl⟩
  · rename_i newFaces heq
    constructor
    · rw [foldl_write_length]
      exact hlen
    · intro r hr
      apply foldl_write_read
      intro i hi
      have hi6 : i < 6 := by simpa using hi
      have := hrefs i hi6
      omega

theorem dupFaces_frame (N2 : ℕ) (inFormat : ImageFormat) :
    ∀ (rs : List ℕ) (st : Store) (N0 : ℕ), N0 ≤ st.length →
      N0 ≤ (dupFaces N2 inFormat st rs).1.length ∧
      ∀ r, r < N0 → (dupFaces N2 inFormat st rs).1.read r = st.read r := by
  intro rs
  induction rs with
  | nil => intro st N0 h; exact ⟨h, fun r hr => rfl⟩
  | cons r rest ih =>
    intro st N0 h
    unfold dupFaces
    cases inFormat with
    | RgbaF32PremulAlpha =>
      simp only []
      by_cases hlen : (st.read r).length < N2
      · rw [if_pos hlen]
        refine ⟨by simp only [List.length_append]; omega, ?_⟩
        intro q hq
        exact Store.read_append st _ q (by omega)
      · rw [if_neg hlen]
        obtain ⟨ih1, ih2⟩ := ih (st ++ [st.read r]) N0
          (by simp only [List.length_append]; omega)
        split
        · rename_i st2 rs2 heq
          have h1 : (dupFaces N2 ImageFormat.RgbaF32PremulAlpha
              (st ++ [st.read r]) rest).1 = st2 := by rw [heq]
          rw [h1] at ih1 ih2
          refine ⟨ih1, ?_⟩
          intro q hq
          rw [ih2 q hq]
          exact Store.read_append st _ q (by omega)
        · rename_i st2 e heq
          have h1 : (dupFaces N2 ImageFormat.RgbaF32PremulAlpha
              (st ++ [st.read r]) rest).1 = st2 := by rw [heq]
          rw [h1] at ih1 ih2
          refine ⟨ih1, ?_⟩
          intro q hq
          rw [ih2 q hq]
          exact Store.read_append st _ q (by omega)
    | Srgbx8 => exact ⟨h, fun q hq => rfl⟩
    | Srgba8StraightAlpha => exact ⟨h, fun q hq => rfl⟩

theorem dupFaces_ok_refs (N2 : ℕ) (inFormat : ImageFormat) :
    ∀ (rs : List ℕ) (st st2 : Store) (brs : List ℕ),
      dupFaces N2 inFormat st rs = (st2, .ok brs) →
      brs.length = rs.length ∧ ∀ b ∈ brs, st.length ≤ b := by
  intro rs
  induction rs with
  | nil =>
    intro st st2 brs h
    simp only [dupFaces, Prod.mk.injEq, Except.ok.injEq] at h
    obtain ⟨-, h2⟩ := h
    subst h2
    simp
  | cons r rest ih =>
    intro st st2 brs h
    unfold dupFaces at h
    cases inFormat with
    | RgbaF32PremulAlpha =>
      simp only [] at h
      by_cases hlen : (st.read r).length < N2
      · rw [if_pos hlen] at h
        simp at h
      · rw [if_neg hlen] at h
        split at h
        · rename_i st3 rs3 heq
          simp only [Prod.mk.injEq, Except.ok.injEq] at h
          obtain ⟨h1, h2⟩ := h
          subst h2
          obtain ⟨hl, hb⟩ := ih (st ++ [st.read r]) st3 rs3 heq
          refine ⟨by simp [hl], ?_⟩
          intro b hb2
          simp only [List.mem_cons] at hb2
          rcases hb2 with hb2 | hb2
          · omega
          · have := hb b hb2
            simp only [List.length_append, List.length_singleton] at this
            omega
        · rename_i st3 e heq
          simp at h
    | Srgbx8 => simp at h
    | Srgba8StraightAlpha => simp at h

theorem resampleStore_frame (c n : ℤ) (st : Store) (refs : List ℕ) (N0 : ℕ)
    (h : N0 ≤ st.length) :
    N0 ≤ (resampleStore c n st refs).1.length ∧
    ∀ r, r < N0 → (resampleStore c n st refs).1.read r = st.read r := by
  unfold resampleStore
  split
  · exact ⟨h, fun r hr => rfl⟩
  · rename_i fs heq
    split
    rename_i st2 rs2 heq2
    obtain ⟨ha1, -, -⟩ := allocAll_spec fs st
    have h1 : (allocAll st fs).1 = st2 := by rw [heq2]
    rw [h1] at ha1
    subst ha1
    refine ⟨by simp only [List.length_append]; omega, ?_⟩
    intro r hr
    exact Store.read_append st fs r (by omega)

theorem resampleStore_ok_refs (c n : ℤ) (st st2 : Store) (refs rs2 : List ℕ)
    (h : resampleStore c n st refs = (st2, .ok rs2)) :
    rs2.length = refs.length ∧ ∀ b ∈ rs2, st.length ≤ b := by
  unfold resampleStore at h
  split at h
  · simp at h
  · rename_i fs heq
    split at h
    rename_i st3 rs3 heq2
    simp only [Prod.mk.injEq, Except.ok.injEq] at h
    obtain ⟨h1, h2⟩ := h
    subst h1
    subst h2
    obtain ⟨-, ha2, ha3⟩ := allocAll_spec fs st
    rw [heq2] at ha2 ha3
    simp only [] at ha2 ha3
    obtain ⟨hlen, -⟩ := resampleAll_ok c n (refs.map st.read) fs heq
    refine ⟨?_, ha3⟩
    rw [ha2, hlen]
    simp

theorem coerceOutStore_frame (outFormat : ImageFormat) (st : Store) (refs : List ℕ)
    (N0 : ℕ) (h : N0 ≤ st.length) :
    N0 ≤ (coerceOutStore outFormat st refs).1.length ∧
    ∀ r, r < N0 → (coerceOutStore outFormat st refs).1.read r = st.read r := by
  unfold coerceOutStore
  split
  · obtain ⟨ha1, -, -⟩ := allocAll_spec
      (refs.map fun r => coerceRgbaF32PremulAlphaTo (st.read r) outFormat) st
    rw [ha1]
    refine ⟨by simp only [List.length_append]; omega, ?_⟩
    intro r hr
    exact Store.read_append st _ r (by omega)
  · exact ⟨h, fun r hr => rfl⟩

theorem getD_mem_nat (l : List ℕ) (i : ℕ) (h : i < l.length) : l.getD i 0 ∈ l := by
  rw [List.getD_eq_getElem?_getD, List.getElem?_eq_getElem h, Option.getD_some]
  exact List.getElem_mem h

/-- The reference-level per-level loop preserves every heap cell below
`N0` — in particular every array the caller passed in — as long as the
working references are all at or above `N0`. -/
theorem processLevelsStore_frame (passFn : PassFn) (outFormat : ImageFormat) :
    ∀ (plan : List PlanEntry) (d : Bool) (st : Store) (refs : List ℕ)
      (s : ℤ) (N0 : ℕ),
      N0 ≤ st.length → refs.length = 6 → (∀ i, i < 6 → N0 ≤ refs.getD i 0) →
      N0 ≤ (processLevelsStore passFn outFormat d st refs s plan).1.length ∧
      ∀ r, r < N0 →
        (processLevelsStore passFn outFormat d st refs s plan).1.read r =
          st.read r := by
  intro plan
  induction plan with
  | nil => intro d st refs s N0 h _ _; exact ⟨h, fun r hr => rfl⟩
  | cons entry rest ih =>
    intro d st refs s N0 hst hlen hrefs
    unfold processLevelsStore
    have hmain : ∀ (st1 : Store) (refs1 : List ℕ) (ns : ℤ),
        N0 ≤ st1.length → refs1.length = 6 → (∀ i, i < 6 → N0 ≤ refs1.getD i 0) →
        (∀ r, r < N0 → st1.read r = st.read r) →
        N0 ≤ (match ltasgStore passFn st1 refs1 ns entry.kernel entry.kernelScale
              entry.numPasses with
          | (st2, some e) => (st2, Except.error e)
          | (st2, none) =>
            match coerceOutStore outFormat st2 refs1 with
            | (st3, emitted) =>
              match processLevelsStore passFn outFormat true st3 refs1 ns rest with
              | (st4, Except.error e) => (st4, Except.error e)
              | (st4, Except.ok tail) =>
                (st4, Except.ok (emitted :: tail))).1.length ∧
        ∀ r, r < N0 →
          (match ltasgStore passFn st1 refs1 ns entry.kernel entry.kernelScale
              entry.numPasses with
          | (st2, some e) => (st2, Except.error e)
          | (st2, none) =>
            match coerceOutStore outFormat st2 refs1 with
            | (st3, emitted) =>
              match processLevelsStore passFn outFormat true st3 refs1 ns rest with
              | (st4, Except.error e) => (st4, Except.error e)
              | (st4, Except.ok tail) =>
                (st4, Except.ok (emitted :: tail))).1.read r = st.read r := by
      intro st1 refs1 ns h1 h2 h3 h4
      obtain ⟨hl2, hr2⟩ := ltasgStore_frame passFn st1 refs1 ns entry.kernel
        entry.kernelScale entry.numPasses N0 h1 h3
      split
      · rename_i st2 e heq
        rw [heq] at hl2 hr2
        exact ⟨hl2, fun r hr => by rw [hr2 r hr, h4 r hr]⟩
      · rename_i st2 heq
        rw [heq] at hl2 hr2
        simp only [] at hl2 hr2
        obtain ⟨hl3, hr3⟩ := coerceOutStore_frame outFormat st2 refs1 N0 hl2
        split
        rename_i st3 emitted heq3
        rw [heq3] at hl3 hr3
        simp only [] at hl3 hr3
        obtain ⟨hl4, hr4⟩ := ih true st3 refs1 ns N0 hl3 h2 h3
        split
        · rename_i st4 e heq4
          rw [heq4] at hl4 hr4
          exact ⟨hl4, fun r hr => by
            rw [hr4 r hr, hr3 r hr, hr2 r hr, h4 r hr]⟩
        · rename_i st4 tail heq4
          rw [heq4] at hl4 hr4
          exact ⟨hl4, fun r hr => by
            rw [hr4 r hr, hr3 r hr, hr2 r hr, h4 r hr]⟩
    cases d with
    | false =>
      simp only [Bool.false_eq_true, if_false]
      exact hmain st refs s hst hlen hrefs (fun r hr => rfl)
    | true =>
      simp only [if_true]
      obtain ⟨hlr, hrr⟩ := resampleStore_frame s ((s + 1) / 2) st refs N0 hst
      split
      · rename_i st1 e heq
        rw [heq] at hlr hrr
        exact ⟨hlr, hrr⟩
      · rename_i st1 refs1 heq
        rw [heq] at hlr hrr
        simp only [] at hlr hrr
        obtain ⟨hql, hqb⟩ := resampleStore_ok_refs s ((s + 1) / 2) st st1 refs refs1 heq
        exact hmain st1 refs1 ((s + 1) / 2) hlr (by omega) (fun i hi =>
          le_trans hst (hqb _ (getD_mem_nat refs1 i (by omega)))) hrr

/-- C9: `LtasgBlur.process` never mutates the caller's input.  At the
reference level, every heap cell that existed before the call — in
particular every array the caller passed — reads the same after the call,
whether it returns or throws: the coerced float face is duplicated
whenever the coercion returns the caller's own array, and all writes go
to the duplicates or to freshly allocated arrays. -/
theorem process_preserves_input (passFn : PassFn) (b : LtasgBlurT) (st : Store)
    (inRefs : List ℕ) (inFormat outFormat : ImageFormat) (r : ℕ)
    (hr : r < st.length) :
    (processStore passFn b st inRefs inFormat outFormat).1.read r = st.read r := by
  unfold processStore
  by_cases hin : inRefs.length < 6
  · rw [if_pos hin]
  · rw [if_neg hin]
    obtain ⟨hdl, hdr⟩ := dupFaces_frame (b.size * b.size * 4).toNat inFormat
      (inRefs.take 6) st st.length le_rfl
    split
    · rename_i st1 e heq
      rw [heq] at hdr
      exact hdr r hr
    · rename_i st1 baseRefs heq
      rw [heq] at hdl hdr
      simp only [] at hdl hdr
      obtain ⟨hbl, hbb⟩ := dupFaces_ok_refs (b.size * b.size * 4).toNat inFormat
        (inRefs.take 6) st st1 baseRefs heq
      have h6 : baseRefs.length = 6 := by
        rw [hbl, List.length_take]
        omega
      obtain ⟨-, hpr⟩ := processLevelsStore_frame passFn outFormat b.plan false st1
        baseRefs b.size st.length hdl h6
        (fun i hi => hbb _ (getD_mem_nat baseRefs i (by omega)))
      rw [hpr r hr, hdr r hr]

/-- Witness for C9: a one-cell heap holding the face `[5]`, read back
unchanged after a full `process` call at the reference level. -/
theorem process_preserves_input_witness :
    0 < ([[5]] : Store).length ∧
      Store.read (processStore passIdC ⟨1, []⟩ [[5]] [0, 0, 0, 0, 0, 0]
        ImageFormat.RgbaF32PremulAlpha ImageFormat.RgbaF32PremulAlpha).1 0 =
        Store.read [[5]] 0 :=
  ⟨by norm_num,
   process_preserves_input passIdC ⟨1, []⟩ [[5]] [0, 0, 0, 0, 0, 0]
     ImageFormat.RgbaF32PremulAlpha ImageFormat.RgbaF32PremulAlpha 0 (by norm_num)⟩

end Emg
